import Mathlib

/-!
Verification development for the XCDF expression compiler/evaluator
(src/src/Expression.cc, src/include/xcdf/utility/EventSelectExpression.h,
src/include/xcdf/utility/FieldNodeDefs.h, src/include/xcdf/utility/Histogram.h).

The C++ code is shallowly embedded: 64-bit machine integers are modelled as
Nat/Int with explicit wrapping where the code wraps, IEEE doubles are modelled
as exact rationals (the value-conservation and parse-structure claims settled
here do not depend on rounding), fallible code returns Except/Option, and the
in-place std::list splicing of the parser is modelled by pure list rewriting.
Definitions whose C++ source is in a header that is not part of src/
(Symbol.h, NodeDefs.h) are modelled from the spec and say so in their doc
comment.
-/

/-- The three scalar element types (spec section 3.1; XCDF_UNSIGNED_INTEGER,
XCDF_SIGNED_INTEGER, XCDF_FLOATING_POINT). -/
inductive NType
  | u64
  | i64
  | f64
deriving DecidableEq

/-- Operator kinds of the SymbolType enum (Expression.cc ParseOperatorImpl). -/
inductive OpType
  | addition
  | subtraction
  | multiplication
  | division
  | modulus
  | power
  | openParand
  | closeParand
  | equality
  | inequality
  | greaterThan
  | lessThan
  | greaterThanEqual
  | lessThanEqual
  | logicalOr
  | logicalAnd
  | bitwiseOr
  | bitwiseAnd
  | logicalNot
  | bitwiseNot
  | comma
deriving DecidableEq

/-- Function keyword kinds of the SymbolType enum (Expression.cc
ParseValueImpl). `float` and `double` both map to the DOUBLE kind. -/
inductive FuncType
  | inF
  | uniqueF
  | anyF
  | allF
  | sumF
  | sinF
  | cosF
  | tanF
  | asinF
  | acosF
  | atanF
  | logF
  | log10F
  | expF
  | absF
  | sqrtF
  | ceilF
  | floorF
  | isnanF
  | isinfF
  | sinhF
  | coshF
  | tanhF
  | randF
  | fmodF
  | powF
  | intF
  | unsignedF
  | doubleF
  | atan2F
deriving DecidableEq

/-- Compiled evaluation-tree nodes. Each constructor corresponds to one node
class built by Expression.cc (ConstNode, FieldNode, AliasNode, CounterNode
from FieldNodeDefs.h; the unary/binary/reducer/in/rand nodes dispatched by
DoGetNode / GetNodeImpl). Scalar values are carried as exact rationals. -/
inductive NodeExpr
  | constN : NType → ℚ → NodeExpr
  | fieldN : String → NType → NodeExpr
  | aliasN : String → NType → NodeExpr
  | counterN : NodeExpr
  | unaryN : FuncType → NodeExpr → NodeExpr
  | notN : OpType → NodeExpr → NodeExpr
  | binN : OpType → NodeExpr → NodeExpr → NodeExpr
  | fmodN : NodeExpr → NodeExpr → NodeExpr
  | atan2N : NodeExpr → NodeExpr → NodeExpr
  | inN : NodeExpr → List ℚ → NodeExpr
  | randN : NodeExpr

/-- Parser symbols: operators, function keywords, built nodes, argument lists
(ListSymbol), and the default-constructed plain Symbol that the DoGetNode
dispatchers return on unreachable enum values. -/
inductive SymbolT
  | op : OpType → SymbolT
  | func : FuncType → SymbolT
  | node : NodeExpr → SymbolT
  | list : List SymbolT → SymbolT
  | plain : SymbolT

/-- Fatal-error kinds raised by XCDFFatal along the compile path. -/
inductive Err
  | fuelErr
  | cannotParse
  | missingParen
  | noExpression
  | invalidExpression
  | unpairedOpen
  | unpairedClose
  | missingUnaryOperand
  | missingBinaryOperand
  | tooManyArgs
  | nonConstIn
  | bitwiseFloat
deriving DecidableEq

/-- The 3-by-3 promotion matrix hard-coded in DoGetNode (Expression.cc
lines 941-1005): any F64 operand dominates, otherwise any I64 operand
dominates, otherwise U64. -/
def dominantType : NType → NType → NType
  | .f64, _ => .f64
  | _, .f64 => .f64
  | .i64, _ => .i64
  | _, .i64 => .i64
  | _, _ => .u64

/-- Modelled from the spec: the output element type of each node class lives
in NodeDefs.h, which is not under src/. Section 4.4: unary math functions
produce F64 except `abs` (operand type) and `isnan`/`isinf` (U64); casts
produce their target type; reducers `any`/`all`/`unique` produce U64 and
`sum` the operand type; comparison/equality/logical nodes produce U64;
arithmetic uses the dominant type; `pow`/`fmod`/`atan2` (and `^`) produce
F64; `in` produces U64; `rand` produces F64. -/
def elemType : NodeExpr → NType
  | .constN t _ => t
  | .fieldN _ t => t
  | .aliasN _ t => t
  | .counterN => .u64
  | .unaryN f n =>
    match f with
    | .absF => elemType n
    | .sumF => elemType n
    | .isnanF => .u64
    | .isinfF => .u64
    | .uniqueF => .u64
    | .anyF => .u64
    | .allF => .u64
    | .intF => .i64
    | .unsignedF => .u64
    | _ => .f64
  | .notN o n =>
    match o with
    | .logicalNot => .u64
    | _ => elemType n
  | .binN o a b =>
    match o with
    | .equality => .u64
    | .inequality => .u64
    | .greaterThan => .u64
    | .lessThan => .u64
    | .greaterThanEqual => .u64
    | .lessThanEqual => .u64
    | .logicalOr => .u64
    | .logicalAnd => .u64
    | .power => .f64
    | _ => dominantType (elemType a) (elemType b)
  | .fmodN _ _ => .f64
  | .atan2N _ _ => .f64
  | .inN _ _ => .u64
  | .randN => .f64

/-- SymbolType-style tag of a symbol, mirroring Symbol::GetType(): operators
and functions carry their enum value, nodes report their element type as
FLOATING_POINT_NODE / SIGNED_NODE / UNSIGNED_NODE, lists report LIST. -/
inductive SymType
  | o : OpType → SymType
  | f : FuncType → SymType
  | floatingPointNode
  | signedNode
  | unsignedNode
  | listT
  | noneT
deriving DecidableEq

def GetType : SymbolT → SymType
  | .op o => .o o
  | .func f => .f f
  | .node n =>
    match elemType n with
    | .f64 => .floatingPointNode
    | .i64 => .signedNode
    | .u64 => .unsignedNode
  | .list _ => .listT
  | .plain => .noneT

/-- Symbol::IsNode: the symbol is a built evaluator node. -/
def IsNodeS (s : SymbolT) : Bool :=
  match GetType s with
  | .floatingPointNode => true
  | .signedNode => true
  | .unsignedNode => true
  | _ => false

/-- Modelled from the spec: the classification predicates live in Symbol.h,
which is not under src/. Section 3.3 lists the unary functions (including the
casts and the reducers), the binary functions `fmod`, `pow`, `atan2`, `in`,
and the void function `rand`. -/
def IsUnaryFunctionS (s : SymbolT) : Bool :=
  match s with
  | .func f =>
    match f with
    | .inF => false
    | .randF => false
    | .fmodF => false
    | .powF => false
    | .atan2F => false
    | _ => true
  | _ => false

/-- Modelled from the spec: see IsUnaryFunctionS. -/
def IsBinaryFunctionS (s : SymbolT) : Bool :=
  match s with
  | .func .inF => true
  | .func .fmodF => true
  | .func .powF => true
  | .func .atan2F => true
  | _ => false

/-- Modelled from the spec: see IsUnaryFunctionS. -/
def IsVoidFunctionS (s : SymbolT) : Bool :=
  match s with
  | .func .randF => true
  | _ => false

/-- Symbol::IsFunction: any function keyword symbol. -/
def IsFunctionS (s : SymbolT) : Bool :=
  IsUnaryFunctionS s || IsBinaryFunctionS s || IsVoidFunctionS s

/-- Modelled from the spec: Symbol.h is not under src/; section 4.3 runs the
comparison pass over `<`, `<=`, `>`, `>=`. -/
def IsComparisonOp (o : OpType) : Bool :=
  match o with
  | .greaterThan => true
  | .lessThan => true
  | .greaterThanEqual => true
  | .lessThanEqual => true
  | _ => false

/-- Modelled from the spec: Symbol.h is not under src/; section 4.3 runs the
equality pass over `==`, `!=`. -/
def IsEqualityOp (o : OpType) : Bool :=
  match o with
  | .equality => true
  | .inequality => true
  | _ => false

/-! ## Numeric-literal parsing (Expression.cc DoConstNode / ParseNumerical) -/

def wsChars : List Char := [' ', '\n', '\r', '\t']

def dropWs (l : List Char) : List Char := l.dropWhile (fun c => wsChars.contains c)

def splitDigits (l : List Char) : List Char × List Char :=
  (l.takeWhile Char.isDigit, l.dropWhile Char.isDigit)

def digitsVal (ds : List Char) : Nat :=
  ds.foldl (fun a c => a * 10 + (c.toNat - '0'.toNat)) 0

def isHexDigitC (c : Char) : Bool :=
  c.isDigit || ('a' ≤ c && c ≤ 'f') || ('A' ≤ c && c ≤ 'F')

def hexDigitVal (c : Char) : Nat :=
  if c.isDigit then c.toNat - '0'.toNat
  else if 'a' ≤ c && c ≤ 'f' then c.toNat - 'a'.toNat + 10
  else c.toNat - 'A'.toNat + 10

def hexDigitsVal (ds : List Char) : Nat :=
  ds.foldl (fun a c => a * 16 + hexDigitVal c) 0

/-- Leading sign of a C++ numeric field: returns (negative?, rest). -/
def parseSign : List Char → Bool × List Char
  | '-' :: r => (true, r)
  | '+' :: r => (false, r)
  | l => (false, l)

/-- Remainder check of DoConstNode: after `ss >> out`, `ss >> s` must read an
empty string, i.e. only whitespace may remain. -/
def fullConsumed (rest : List Char) : Bool := (dropWs rest).isEmpty

/-- Models `stringstream >> uint64_t` with std::dec: optional sign and decimal
digits; a value beyond the 64-bit range sets failbit; a negative in-range
value is stored wrapped modulo 2^64 (strtoull semantics, the well-known C++
stream behaviour for unsigned targets). -/
def readU64dec (l : List Char) : Option (Nat × List Char) :=
  let l1 := dropWs l
  let p := parseSign l1
  let d := splitDigits p.2
  if d.1.isEmpty then none
  else
    let v := digitsVal d.1
    if 2 ^ 64 ≤ v then none
    else some (if p.1 then (2 ^ 64 - v) % 2 ^ 64 else v, d.2)

/-- Models `stringstream >> int64_t` with std::dec (strtoll semantics):
optional sign and decimal digits; out-of-range sets failbit. -/
def readI64dec (l : List Char) : Option (Int × List Char) :=
  let l1 := dropWs l
  let p := parseSign l1
  let d := splitDigits p.2
  if d.1.isEmpty then none
  else
    let v := digitsVal d.1
    if p.1 then (if 2 ^ 63 < v then none else some (-(v : Int), d.2))
    else (if 2 ^ 63 ≤ v then none else some ((v : Int), d.2))

/-- Models `stringstream >> uint64_t` after `ss << std::hex` (strtoull with
base 16): optional sign, optional 0x/0X prefix when followed by a hex digit,
then hex digits. -/
def readU64hex (l : List Char) : Option (Nat × List Char) :=
  let l1 := dropWs l
  let p := parseSign l1
  let body :=
    match p.2 with
    | '0' :: x :: rest =>
      if (x = 'x' || x = 'X') && (match rest with
                                  | c :: _ => isHexDigitC c
                                  | [] => false) then rest else p.2
    | _ => p.2
  let ds := body.takeWhile isHexDigitC
  let rest := body.dropWhile isHexDigitC
  if ds.isEmpty then none
  else
    let v := hexDigitsVal ds
    if 2 ^ 64 ≤ v then none
    else some (if p.1 then (2 ^ 64 - v) % 2 ^ 64 else v, rest)

/-- Models `stringstream >> double` on the plain decimal forms: sign, integer
digits, optional fraction, optional exponent, the value taken as an exact
rational. Binary64 rounding and the hexadecimal-float / inf / nan spellings
are not modelled; no claim settled here depends on them. -/
def readF64dec (l : List Char) : Option (ℚ × List Char) :=
  let l1 := dropWs l
  let p := parseSign l1
  let d := splitDigits p.2
  let fr : Option (List Char) × List Char :=
    match d.2 with
    | '.' :: rr => (some (splitDigits rr).1, (splitDigits rr).2)
    | _ => (none, d.2)
  let noMant := d.1.isEmpty && (match fr.1 with
                                | none => true
                                | some ds => ds.isEmpty)
  if noMant then none
  else
    let mant : ℚ := (digitsVal d.1 : ℚ) +
      (match fr.1 with
       | none => 0
       | some ds => (digitsVal ds : ℚ) / ((10 ^ ds.length : Nat) : ℚ))
    let ex : Option (Bool × Nat) × List Char :=
      match fr.2 with
      | c :: rr =>
        if c = 'e' || c = 'E' then
          let q := parseSign rr
          let e := splitDigits q.2
          if e.1.isEmpty then (none, fr.2) else (some (q.1, digitsVal e.1), e.2)
        else (none, fr.2)
      | [] => (none, fr.2)
    let v : ℚ :=
      match ex.1 with
      | none => mant
      | some (en, ev) =>
        if en then mant / ((10 ^ ev : Nat) : ℚ) else mant * ((10 ^ ev : Nat) : ℚ)
    some (if p.1 then -v else v, ex.2)

/-- DoConstNode<uint64_t> with std::dec. -/
def DoConstNodeU64dec (l : List Char) : Option NodeExpr :=
  match readU64dec l with
  | some (v, rest) => if fullConsumed rest then some (.constN .u64 (v : ℚ)) else none
  | none => none

/-- DoConstNode<int64_t> with std::dec. -/
def DoConstNodeI64dec (l : List Char) : Option NodeExpr :=
  match readI64dec l with
  | some (v, rest) => if fullConsumed rest then some (.constN .i64 (v : ℚ)) else none
  | none => none

/-- DoConstNode<uint64_t> with std::hex. -/
def DoConstNodeU64hex (l : List Char) : Option NodeExpr :=
  match readU64hex l with
  | some (v, rest) => if fullConsumed rest then some (.constN .u64 (v : ℚ)) else none
  | none => none

/-- DoConstNode<double> with std::dec. -/
def DoConstNodeF64dec (l : List Char) : Option NodeExpr :=
  match readF64dec l with
  | some (v, rest) => if fullConsumed rest then some (.constN .f64 v) else none
  | none => none

/-- Expression.cc ParseNumerical, lines 226-228:
`char hex[2] = {'X', 'x'}; if (numerical.find(hex) != std::string::npos)`.
The two-character array is not null-terminated, and
`std::string::find(const char*)` reads its argument as a C string: as
written (reading the adjacent byte as the terminator, exactly as the spec's
section 9 analysis of this line states) it searches the literal for the
two-character substring "Xx". -/
def hexFindGuard (l : List Char) : Bool :=
  (List.range l.length).any (fun i => l.getD i ' ' == 'X' && l.getD (i + 1) ' ' == 'x')

/-- Expression::ParseNumerical: hex U64 is attempted only under hexFindGuard;
then decimal U64, decimal I64, decimal F64, first success wins. -/
def ParseNumerical (l : List Char) : Option NodeExpr :=
  let h := if hexFindGuard l then DoConstNodeU64hex l else none
  match h with
  | some n => some n
  | none =>
    match DoConstNodeU64dec l with
    | some n => some n
    | none =>
      match DoConstNodeI64dec l with
      | some n => some n
      | none => DoConstNodeF64dec l

/-! ## Record-source schema and value classification (ParseValueImpl) -/

/-- The slice of the XCDFFile interface that Expression.cc consults when
classifying a value token: field names with their element types, and alias
names with theirs (HasField / IsUnsignedIntegerField / ... / HasAlias /
IsUnsignedIntegerAlias / ...). -/
structure Schema where
  fields : List (String × NType)
  aliases : List (String × NType)

def Schema.empty : Schema := ⟨[], []⟩

def Schema.fieldType (f : Schema) (name : String) : Option NType :=
  f.fields.lookup name

def Schema.aliasType (f : Schema) (name : String) : Option NType :=
  f.aliases.lookup name

/-- Expression::ParseValueImpl (Expression.cc lines 243-430): field first,
then alias, then the reserved counter, then numeric literal, then the
function keywords, then true/false; the first match wins, otherwise NULL. -/
def ParseValueImpl (f : Schema) (exp : String) : Option SymbolT :=
  match f.fieldType exp with
  | some t => some (.node (.fieldN exp t))
  | none =>
  match f.aliasType exp with
  | some t => some (.node (.aliasN exp t))
  | none =>
  if exp = "currentEventNumber" then some (.node .counterN)
  else
  match ParseNumerical exp.data with
  | some n => some (.node n)
  | none =>
  if exp = "in" then some (.func .inF)
  else if exp = "unique" then some (.func .uniqueF)
  else if exp = "any" then some (.func .anyF)
  else if exp = "all" then some (.func .allF)
  else if exp = "sum" then some (.func .sumF)
  else if exp = "sin" then some (.func .sinF)
  else if exp = "cos" then some (.func .cosF)
  else if exp = "tan" then some (.func .tanF)
  else if exp = "asin" then some (.func .asinF)
  else if exp = "acos" then some (.func .acosF)
  else if exp = "atan" then some (.func .atanF)
  else if exp = "log" then some (.func .logF)
  else if exp = "log10" then some (.func .log10F)
  else if exp = "exp" then some (.func .expF)
  else if exp = "abs" then some (.func .absF)
  else if exp = "fabs" then some (.func .absF)
  else if exp = "sqrt" then some (.func .sqrtF)
  else if exp = "ceil" then some (.func .ceilF)
  else if exp = "floor" then some (.func .floorF)
  else if exp = "isnan" then some (.func .isnanF)
  else if exp = "isinf" then some (.func .isinfF)
  else if exp = "sinh" then some (.func .sinhF)
  else if exp = "cosh" then some (.func .coshF)
  else if exp = "tanh" then some (.func .tanhF)
  else if exp = "rand" then some (.func .randF)
  else if exp = "fmod" then some (.func .fmodF)
  else if exp = "pow" then some (.func .powF)
  else if exp = "int" then some (.func .intF)
  else if exp = "unsigned" then some (.func .unsignedF)
  else if exp = "float" then some (.func .doubleF)
  else if exp = "double" then some (.func .doubleF)
  else if exp = "atan2" then some (.func .atan2F)
  else if exp = "true" then some (.node (.constN .u64 1))
  else if exp = "false" then some (.node (.constN .u64 0))
  else none

/-- Expression::ParseOperatorImpl as an association table (the C++ is an
if/else-if chain over exact string comparisons; the table preserves order and
content). -/
def operTable : List (List Char × SymbolT) :=
  [(['+'], .op .addition),
   (['-'], .op .subtraction),
   (['*'], .op .multiplication),
   (['/'], .op .division),
   (['%'], .op .modulus),
   (['^'], .op .power),
   (['('], .op .openParand),
   ([')'], .op .closeParand),
   (['=', '='], .op .equality),
   (['!', '='], .op .inequality),
   (['>'], .op .greaterThan),
   (['<'], .op .lessThan),
   (['>', '='], .op .greaterThanEqual),
   (['<', '='], .op .lessThanEqual),
   (['|', '|'], .op .logicalOr),
   (['&', '&'], .op .logicalAnd),
   (['|'], .op .bitwiseOr),
   (['&'], .op .bitwiseAnd),
   (['!'], .op .logicalNot),
   (['~'], .op .bitwiseNot),
   ([','], .op .comma)]

def ParseOperatorImpl (lc : List Char) : Option SymbolT :=
  (operTable.find? (fun p => p.1 == lc)).map (fun p => p.2)

/-! ## Node dispatch (DoGetNode, GetInNode; Expression.cc lines 760-1011) -/

/-- Truncation toward zero, the C-style conversion of a floating value to an
integer type (spec section 4.4: lossy conversions truncate). -/
def qtrunc (v : ℚ) : Int := if 0 ≤ v then ⌊v⌋ else ⌈v⌉

/-- Wrap an integer into uint64_t range. -/
def wrapU64 (n : Int) : Int := n.emod (2 ^ 64)

/-- Wrap an integer into int64_t range (two's complement, the behaviour of
the compilers this code targets). -/
def wrapI64 (n : Int) : Int := (n + 2 ^ 63).emod (2 ^ 64) - 2 ^ 63

/-- static_cast<T> applied to a scalar value, as in GetConstValue. -/
def castTo : NType → ℚ → ℚ
  | .f64, v => v
  | .u64, v => ((wrapU64 (qtrunc v) : Int) : ℚ)
  | .i64, v => ((wrapI64 (qtrunc v) : Int) : ℚ)

/-- GetNodeValue / GetConstValue (Expression.cc lines 760-779): the symbol
must be a ConstNode (the dynamic_cast fails on any other node, and the
default of the GetType switch fails on any non-node symbol), and its datum is
static_cast to the target type T. -/
def GetNodeValue (t : NType) (s : SymbolT) : Except Err ℚ :=
  match s with
  | .node (.constN _ v) => .ok (castTo t v)
  | _ => .error .nonConstIn

/-- GetInNode (Expression.cc lines 781-796): collect the constant values of
the second argument (a ListSymbol or a single symbol), cast to the element
type of the first argument, and build InNode. -/
def GetInNode (t : NType) (n1 : NodeExpr) (n2 : SymbolT) : Except Err NodeExpr :=
  match n2 with
  | .list syms =>
    match syms.mapM (GetNodeValue t) with
    | .ok data => .ok (.inN n1 data)
    | .error e => .error e
  | s =>
    match GetNodeValue t s with
    | .ok v => .ok (.inN n1 [v])
    | .error e => .error e

/-- Binary dispatch tag: GetBinarySymbol is invoked both with operator kinds
(POWER and the arithmetic/comparison/logical/bitwise operators) and with
binary-function kinds (POW, FMOD, ATAN2, IN). -/
inductive BinKind
  | bop : OpType → BinKind
  | bfn : FuncType → BinKind

/-- DoGetNode for two operands (Expression.cc lines 926-1011 plus the typed
GetNodeImpl at lines 864-909). IN routes to GetInNode on the element type of
the first operand. POWER and POW both build PowerNode; FMOD and ATAN2 build
their nodes; every other kind builds the promoted binary node. The rejection
of bitwise operators over a floating operand is modelled from the spec
(section 4.4; it is enforced inside NodeDefs.h, which is not under src/). -/
def DoGetNodeBin (s1 s2 : SymbolT) (k : BinKind) : Except Err SymbolT :=
  match k with
  | .bfn .inF =>
    match s1 with
    | .node n1 =>
      match GetInNode (elemType n1) n1 s2 with
      | .ok n => .ok (.node n)
      | .error e => .error e
    | _ => .error .missingBinaryOperand
  | _ =>
    match s1, s2 with
    | .node n1, .node n2 =>
      match k with
      | .bop o =>
        if (o = .bitwiseAnd || o = .bitwiseOr) &&
           dominantType (elemType n1) (elemType n2) = .f64 then
          .error .bitwiseFloat
        else .ok (.node (.binN o n1 n2))
      | .bfn .powF => .ok (.node (.binN .power n1 n2))
      | .bfn .fmodF => .ok (.node (.fmodN n1 n2))
      | .bfn .atan2F => .ok (.node (.atan2N n1 n2))
      | .bfn _ => .ok .plain
    | _, _ => .error .missingBinaryOperand

/-- Unary dispatch tag: GetUnarySymbol is invoked with the unary-function
kinds and with the operators `!` and `~`. -/
inductive UnKind
  | uop : OpType → UnKind
  | ufn : FuncType → UnKind

/-- DoGetNode for one operand (Expression.cc lines 912-924 plus GetNodeImpl
at lines 798-862). -/
def DoGetNodeUn (s1 : SymbolT) (k : UnKind) : Except Err SymbolT :=
  match s1 with
  | .node n1 =>
    match k with
    | .uop o => .ok (.node (.notN o n1))
    | .ufn f => .ok (.node (.unaryN f n1))
  | _ => .error .missingUnaryOperand

/-- GetNodeImpl for void functions (Expression.cc lines 1109-1117). -/
def GetNodeVoid (f : FuncType) : SymbolT :=
  match f with
  | .randF => .node .randN
  | _ => .plain

/-! ## Tokenizer (Expression.cc GetNextSymbol / ParseValue / ParseOperator) -/

/-- std::string::substr(start, len), clamped like the C++ original. -/
def sublist (exp : List Char) (start len : Nat) : List Char :=
  (exp.drop start).take len

/-- Scan forward from pos for the first index whose character satisfies p
(the common core of find_first_of / find_first_not_of). -/
def scanFrom (p : Char → Bool) (exp : List Char) : Nat → Nat → Option Nat
  | _, 0 => none
  | pos, fuel + 1 =>
    if pos < exp.length then
      (if p (exp.getD pos ' ') then some pos else scanFrom p exp (pos + 1) fuel)
    else none

def findFirstSuch (p : Char → Bool) (exp : List Char) (pos : Nat) : Option Nat :=
  scanFrom p exp pos (exp.length + 1)

/-- std::string::find_first_not_of(set, pos). -/
def findFirstNotOfFrom (exp set : List Char) (pos : Nat) : Option Nat :=
  findFirstSuch (fun c => !(set.contains c)) exp pos

/-- std::string::find_first_of(set, pos). -/
def findFirstOfFrom (exp set : List Char) (pos : Nat) : Option Nat :=
  findFirstSuch (fun c => set.contains c) exp pos

/-- Scan downward over indices below the counter for the first (i.e. highest)
index whose character satisfies p. -/
def scanDown (p : Char → Bool) (exp : List Char) : Nat → Option Nat
  | 0 => none
  | i + 1 => if p (exp.getD i ' ') then some i else scanDown p exp i

/-- std::string::find_last_* with bound pos (none models npos): indices up to
min(pos, size-1), highest first. -/
def findLastSuch (p : Char → Bool) (exp : List Char) (bound : Option Nat) : Option Nat :=
  scanDown p exp (match bound with
                  | none => exp.length
                  | some b => min (b + 1) exp.length)

def findLastNotOfUpTo (exp set : List Char) (bound : Option Nat) : Option Nat :=
  findLastSuch (fun c => !(set.contains c)) exp bound

def findLastOfUpTo (exp set : List Char) (bound : Option Nat) : Option Nat :=
  findLastSuch (fun c => set.contains c) exp bound

/-- The operator-start characters of GetNextSymbol: `,/*%^)(=><&|!~`. -/
def operChars : List Char :=
  [',', '/', '*', '%', '^', ')', '(', '=', '>', '<', '&', '|', '!', '~']

/-- The operator-continuation characters of ParseOperator: `,/*%^=><&|!~`
(parentheses excluded). -/
def operExtendChars : List Char :=
  [',', '/', '*', '%', '^', '=', '>', '<', '&', '|', '!', '~']

/-- The while loop of ParseOperator: extend endpos while the next character
is an operator-continuation character. -/
def operExtendAux (exp : List Char) : Nat → Nat → Nat
  | e, 0 => e
  | e, fuel + 1 =>
    if e + 1 < exp.length && operExtendChars.contains (exp.getD (e + 1) ' ') then
      operExtendAux exp (e + 1) fuel
    else e

/-- Expression::ParseOperator (Expression.cc lines 172-202): parentheses are
taken alone, every other operator is the longest run of continuation
characters; failure of ParseOperatorImpl is fatal. Returns the symbol and
the updated pos. -/
def ParseOperator (exp : List Char) (pos : Nat) : Except Err (SymbolT × Nat) :=
  let startpos := pos
  let c := exp.getD startpos ' '
  let endpos := if c = '(' || c = ')' then startpos else operExtendAux exp startpos exp.length
  let newpos := endpos + 1
  match ParseOperatorImpl (sublist exp startpos (newpos - startpos)) with
  | some op => .ok (op, newpos)
  | none => .error .cannotParse

/-- The shrink loop of Expression::ParseValue (lines 132-158): try the
largest candidate token, and on classification failure retry with the
substring ending before the rightmost `+`/`-`; running out of candidates is
fatal. A classified function symbol must be followed by `(` at operpos. -/
def valueShrink (f : Schema) (exp : List Char) (startpos : Nat) (operpos : Option Nat) :
    Nat → Option Nat → Except Err (SymbolT × Nat)
  | 0, _ => .error .fuelErr
  | _ + 1, none => .error .cannotParse
  | fuel + 1, some endpos =>
    if endpos < startpos then .error .cannotParse
    else
      match ParseValueImpl f (String.mk (sublist exp startpos (endpos + 1 - startpos))) with
      | some val =>
        if IsFunctionS val then
          match operpos with
          | none => .error .missingParen
          | some op =>
            if exp.getD op ' ' = '(' then .ok (val, endpos + 1) else .error .missingParen
        else .ok (val, endpos + 1)
      | none =>
        let e1 := findLastOfUpTo exp ['+', '-'] (some endpos)
        let e2 :=
          match e1 with
          | none => none
          | some j => findLastNotOfUpTo exp (['+', '-'] ++ wsChars) (some j)
        valueShrink f exp startpos operpos fuel e2

/-- Expression::ParseValue (Expression.cc lines 108-170). The candidate token
runs from pos to the last non-whitespace character before operpos. When the
trimmed token starts with `+`/`-` and the previously emitted symbol is a node
or `)`, the token is handed to ParseOperator instead; otherwise the sign
stays in the token and the shrink loop classifies it. -/
def ParseValue (f : Schema) (exp : List Char) (pos : Nat) (operpos : Option Nat)
    (prevSyms : List SymbolT) : Except Err (SymbolT × Nat) :=
  let startpos := pos
  match findLastNotOfUpTo exp wsChars (match operpos with
                                       | none => none
                                       | some p => some (p - 1)) with
  | none => .error .cannotParse
  | some endpos =>
    let valueString := sublist exp startpos (endpos + 1 - startpos)
    let signLed :=
      match valueString with
      | c :: _ => c = '+' || c = '-'
      | [] => false
    if signLed &&
       (match prevSyms.getLast? with
        | some lastS => IsNodeS lastS || GetType lastS = .o .closeParand
        | none => false) then
      ParseOperator exp pos
    else
      valueShrink f exp startpos operpos (endpos + 2) (some endpos)

/-- Expression::GetNextSymbol (Expression.cc lines 82-106): skip whitespace;
an operator character starts an operator, anything else starts a value
token. Returns none when only whitespace remains. -/
def GetNextSymbol (f : Schema) (exp : List Char) (pos : Nat) (prevSyms : List SymbolT) :
    Except Err (Option (SymbolT × Nat)) :=
  match findFirstNotOfFrom exp wsChars pos with
  | none => .ok none
  | some pos1 =>
    let operpos := findFirstOfFrom exp operChars pos1
    if operpos = some pos1 then
      match ParseOperator exp pos1 with
      | .ok r => .ok (some r)
      | .error e => .error e
    else
      match ParseValue f exp pos1 operpos prevSyms with
      | .ok r => .ok (some r)
      | .error e => .error e

def parseSymbolsAux (f : Schema) (exp : List Char) :
    Nat → Nat → List SymbolT → Except Err (List SymbolT)
  | 0, _, _ => .error .fuelErr
  | fuel + 1, pos, acc =>
    match GetNextSymbol f exp pos acc with
    | .error e => .error e
    | .ok none => .ok acc
    | .ok (some (s, pos1)) => parseSymbolsAux f exp fuel pos1 (acc ++ [s])

/-- Expression::ParseSymbols: emit symbols until GetNextSymbol returns
nothing. The previously emitted symbols are threaded through because
ParseValue consults parsedSymbols_.back(). -/
def ParseSymbols (f : Schema) (exp : List Char) : Except Err (List SymbolT) :=
  parseSymbolsAux f exp (exp.length + 2) 0 []

/-! ## Parser phases (Expression.cc RecursiveParseExpression and friends) -/

/-- One left-to-right binary-operator pass (the common shape of
ReplaceMultiplyDivideModulus, ReplaceAdditionSubtraction, ReplaceComparison,
ReplaceBitwise, ReplaceLogical): every operator selected by `test` consumes
its two neighbours via GetBinarySymbol; the scan resumes after the freshly
built node. `done` is the reversed already-scanned prefix (its head is the
symbol before the iterator, and it is empty exactly when the iterator is at
start). -/
def replaceBinOpScan (test : OpType → Bool) :
    Nat → List SymbolT → List SymbolT → Except Err (List SymbolT)
  | 0, _, _ => .error .fuelErr
  | _ + 1, done, [] => .ok done.reverse
  | fuel + 1, done, s :: rest =>
    match s with
    | .op o =>
      if test o then
        match done, rest with
        | [], _ => .error .missingBinaryOperand
        | _, [] => .error .missingBinaryOperand
        | n1 :: dtail, n2 :: rtail =>
          if IsNodeS n1 && IsNodeS n2 then
            match DoGetNodeBin n1 n2 (.bop o) with
            | .ok nn => replaceBinOpScan test fuel (nn :: dtail) rtail
            | .error e => .error e
          else .error .missingBinaryOperand
      else replaceBinOpScan test fuel (s :: done) rest
    | _ => replaceBinOpScan test fuel (s :: done) rest

/-- The too-many-arguments check of GetUnarySymbol and GetVoidSymbol: the
symbol after the argument position exists and is a node. -/
def headIsNode : List SymbolT → Bool
  | nxt :: _ => IsNodeS nxt
  | [] => false

/-- One ReplaceFunctions step at a function symbol (GetUnarySymbol /
GetVoidSymbol / GetBinarySymbol in function mode plus the surrounding
ReplaceSymbols bookkeeping): returns the new scanned prefix (reversed) and
the remaining symbols. -/
def funcStep (f : FuncType) (done rest : List SymbolT) :
    Except Err (List SymbolT × List SymbolT) :=
  if IsUnaryFunctionS (.func f) then
    match rest with
    | [] => .error .missingUnaryOperand
    | n1 :: rtail =>
      if IsNodeS n1 then
        if headIsNode rtail then .error .tooManyArgs
        else
          match DoGetNodeUn n1 (.ufn f) with
          | .ok nn => .ok (nn :: done, rtail)
          | .error e => .error e
      else .error .missingUnaryOperand
  else if IsVoidFunctionS (.func f) then
    if headIsNode rest then .error .tooManyArgs
    else .ok (GetNodeVoid f :: done, rest)
  else
    match rest with
    | [] => .error .missingBinaryOperand
    | arg :: rtail =>
      match arg with
      | .list args =>
        match args with
        | [] => .error .missingBinaryOperand
        | [_] => .error .missingBinaryOperand
        | [n1, n2] =>
          if IsNodeS n1 && (IsNodeS n2 || f = .inF) then
            match DoGetNodeBin n1 n2 (.bfn f) with
            | .ok nn => .ok (nn :: done, rtail)
            | .error e => .error e
          else .error .missingBinaryOperand
        | _ => .error .tooManyArgs
      | _ => .error .missingBinaryOperand

/-- Expression::ReplaceFunctions (lines 554-581): a single left-to-right scan
replacing unary functions, void functions, binary functions, and the POWER
operator (the `^` token, handled here, before the unary and multiplicative
passes). -/
def replaceFunScan : Nat → List SymbolT → List SymbolT → Except Err (List SymbolT)
  | 0, _, _ => .error .fuelErr
  | _ + 1, done, [] => .ok done.reverse
  | fuel + 1, done, s :: rest =>
    match s with
    | .func f =>
      match funcStep f done rest with
      | .ok (done1, rest1) => replaceFunScan fuel done1 rest1
      | .error e => .error e
    | .op .power =>
      match done, rest with
      | [], _ => .error .missingBinaryOperand
      | _, [] => .error .missingBinaryOperand
      | n1 :: dtail, n2 :: rtail =>
        if IsNodeS n1 && IsNodeS n2 then
          match DoGetNodeBin n1 n2 (.bop .power) with
          | .ok nn => replaceFunScan fuel (nn :: dtail) rtail
          | .error e => .error e
        else .error .missingBinaryOperand
    | _ => replaceFunScan fuel (s :: done) rest

/-- Expression::ReplaceUnary (lines 583-595): left-to-right replacement of
`!` and `~` applied to the symbol on their right. -/
def replaceUnaryScan : Nat → List SymbolT → List SymbolT → Except Err (List SymbolT)
  | 0, _, _ => .error .fuelErr
  | _ + 1, done, [] => .ok done.reverse
  | fuel + 1, done, s :: rest =>
    match s with
    | .op o =>
      if o = .logicalNot || o = .bitwiseNot then
        match rest with
        | [] => .error .missingUnaryOperand
        | n1 :: rtail =>
          if IsNodeS n1 then
            match DoGetNodeUn n1 (.uop o) with
            | .ok nn => replaceUnaryScan fuel (nn :: done) rtail
            | .error e => .error e
          else .error .missingUnaryOperand
      else replaceUnaryScan fuel (s :: done) rest
    | _ => replaceUnaryScan fuel (s :: done) rest

/-- Expression::ReplaceCommas (lines 700-732): a comma at the start or end of
the range is dropped; otherwise the comma folds its neighbours into a
ListSymbol (appending when the left neighbour is already a list). -/
def replaceCommaScan : Nat → List SymbolT → List SymbolT → Except Err (List SymbolT)
  | 0, _, _ => .error .fuelErr
  | _ + 1, done, [] => .ok done.reverse
  | fuel + 1, done, s :: rest =>
    match s with
    | .op .comma =>
      match done, rest with
      | [], _ => replaceCommaScan fuel [] rest
      | _, [] => .ok done.reverse
      | n1 :: dtail, n2 :: rtail =>
        let lst :=
          match n1 with
          | .list xs => SymbolT.list (xs ++ [n2])
          | other => SymbolT.list [other, n2]
        replaceCommaScan fuel (lst :: dtail) rtail
    | _ => replaceCommaScan fuel (s :: done) rest

/-- The scan of Expression::ReplaceParenthesis after the first `(` has been
found: track nesting; the close that brings the count back to zero ends the
pair; running out of symbols leaves the `(` unpaired (fatal). Returns the
symbols strictly inside the pair and the symbols after it. -/
def parenScanB : List SymbolT → Nat → List SymbolT →
    Except Err (List SymbolT × List SymbolT)
  | [], _, _ => .error .unpairedOpen
  | s :: rest, n, iacc =>
    match GetType s with
    | .o .openParand => parenScanB rest (n + 1) (s :: iacc)
    | .o .closeParand =>
      if n = 1 then .ok (iacc.reverse, rest)
      else parenScanB rest (n - 1) (s :: iacc)
    | _ => parenScanB rest n (s :: iacc)

/-- The scan of Expression::ReplaceParenthesis before any `(` has been found:
a `)` here is unpaired (fatal); the first `(` switches to parenScanB.
Returns none when the range holds no parenthesis, otherwise the decomposition
(before, inner, after) of the first parenthesised group. -/
def parenScanA : List SymbolT → List SymbolT →
    Except Err (Option (List SymbolT × List SymbolT × List SymbolT))
  | [], _ => .ok none
  | s :: rest, acc =>
    match GetType s with
    | .o .openParand =>
      match parenScanB rest 1 [] with
      | .ok (inner, after) => .ok (some (acc.reverse, inner, after))
      | .error e => .error e
    | .o .closeParand => .error .unpairedClose
    | _ => parenScanA rest (s :: acc)

/-- Expression::RecursiveParseExpression (tag true) and its
while-ReplaceParenthesis loop (tag false), fuelled so that every definition
stays structurally recursive and computable. The parenthesis contents are
parsed recursively, the pair of parentheses is erased, and once no
parenthesis remains the replacement passes run in the fixed order of
lines 494-503: functions (incl. `^`), unary `!`/`~`, multiplicative,
additive, comparison then equality, bitwise AND then OR, logical AND then
OR, commas. -/
def parseStep : Nat → Bool → List SymbolT → Except Err (List SymbolT)
  | 0, _, _ => .error .fuelErr
  | fuel + 1, true, l =>
    if l.isEmpty then .ok l
    else
      match parseStep fuel false l with
      | .error e => .error e
      | .ok l1 =>
        match replaceFunScan (l1.length + 1) [] l1 with
        | .error e => .error e
        | .ok l2 =>
        match replaceUnaryScan (l2.length + 1) [] l2 with
        | .error e => .error e
        | .ok l3 =>
        match replaceBinOpScan
            (fun o => o = .multiplication || o = .division || o = .modulus)
            (l3.length + 1) [] l3 with
        | .error e => .error e
        | .ok l4 =>
        match replaceBinOpScan (fun o => o = .addition || o = .subtraction)
            (l4.length + 1) [] l4 with
        | .error e => .error e
        | .ok l5 =>
        match replaceBinOpScan (fun o => IsComparisonOp o) (l5.length + 1) [] l5 with
        | .error e => .error e
        | .ok l6 =>
        match replaceBinOpScan (fun o => IsEqualityOp o) (l6.length + 1) [] l6 with
        | .error e => .error e
        | .ok l7 =>
        match replaceBinOpScan (fun o => o = .bitwiseAnd) (l7.length + 1) [] l7 with
        | .error e => .error e
        | .ok l8 =>
        match replaceBinOpScan (fun o => o = .bitwiseOr) (l8.length + 1) [] l8 with
        | .error e => .error e
        | .ok l9 =>
        match replaceBinOpScan (fun o => o = .logicalAnd) (l9.length + 1) [] l9 with
        | .error e => .error e
        | .ok l10 =>
        match replaceBinOpScan (fun o => o = .logicalOr) (l10.length + 1) [] l10 with
        | .error e => .error e
        | .ok l11 => replaceCommaScan (l11.length + 1) [] l11
  | fuel + 1, false, l =>
    match parenScanA l [] with
    | .error e => .error e
    | .ok none => .ok l
    | .ok (some (before, inner, after)) =>
      match parseStep fuel true inner with
      | .error e => .error e
      | .ok inner1 => parseStep fuel false (before ++ inner1 ++ after)

def recursiveParseExpression (fuel : Nat) (l : List SymbolT) : Except Err (List SymbolT) :=
  parseStep fuel true l

/-- Expression::Init (Expression.cc lines 32-48): tokenize, fail on an empty
symbol list, run the recursive parse, and fail unless exactly one symbol
remains. -/
def Init (f : Schema) (s : String) : Except Err (List SymbolT) :=
  match ParseSymbols f s.data with
  | .error e => .error e
  | .ok syms =>
    if syms.length = 0 then .error .noExpression
    else
      match recursiveParseExpression (2 * syms.length + 4) syms with
      | .error e => .error e
      | .ok res => if res.length = 1 then .ok res else .error .invalidExpression

/-! ## Scalar evaluation of constant trees (spec-modelled) -/

/-- Structural natural power on ℚ (kernel-computable, unlike the Monoid
npow instance). -/
def qpowNat (x : ℚ) : Nat → ℚ
  | 0 => 1
  | n + 1 => x * qpowNat x n

/-- Power with an integer exponent, used by the evalScalar model of
PowerNode. -/
def qpowInt (x : ℚ) (n : Int) : ℚ :=
  if 0 ≤ n then qpowNat x n.toNat else (qpowNat x (-n).toNat)⁻¹

/-- Modelled from the spec: the node evaluators live in NodeDefs.h, which is
not under src/. Section 4.4 for scalar (size-1) constant trees: `+`, `-`,
`*` on the dominant type, `^`/pow with both operands coerced to F64 (exact
here for integer exponents, which is all this development evaluates), and
logical NOT producing 0/1. Nodes outside this fragment evaluate to none. -/
def evalScalar : NodeExpr → Option ℚ
  | .constN _ v => some v
  | .binN o a b =>
    match evalScalar a, evalScalar b with
    | some x, some y =>
      match o with
      | .addition => some (x + y)
      | .subtraction => some (x - y)
      | .multiplication => some (x * y)
      | .power => if y.den = 1 then some (qpowInt x y.num) else none
      | _ => none
    | _, _ => none
  | .notN o a =>
    match o with
    | .logicalNot => (evalScalar a).map (fun x => if x = 0 then 1 else 0)
    | _ => none
  | _ => none

/-! ## Event selection wrapper (EventSelectExpression.h) -/

/-- The per-row view of a node that EventSelectExpression uses: its size for
the current row and its elements (spec section 3.2; values as exact
rationals). -/
structure RowNode where
  size : Nat
  get : Nat → ℚ

/-- Modelled from the spec: AnyNode lives in NodeDefs.h, which is not under
src/. Sections 4.4 and 8.1: `any` has U64 output and size 1, and its value
is 1 exactly when some element of the operand row is nonzero (so 0 on an
empty row). -/
def anyNodeEval (n : RowNode) : ℚ :=
  if (List.range n.size).any (fun i => !(decide (n.get i = 0))) then 1 else 0

/-- EventSelectExpression (EventSelectExpression.h lines 48-76): the head
node of the compiled expression is wrapped in AnyNode (for each of the three
scalar element types), and SelectEvent returns (*selectNode_)[0] converted
to bool. -/
def SelectEvent (root : RowNode) : Bool :=
  decide (anyNodeEval root ≠ 0)

/-! ## Histogram1D (Histogram.h lines 41-113) -/

/-- numeric_limits<double>::epsilon(). -/
def epsD : ℚ := 1 / ((2 ^ 52 : Nat) : ℚ)

/-- Histogram1D state: per-bin weight sums, per-bin weight-squared sums,
underflow/overflow accumulators (plain and weight-squared), and the binning
parameters; doubles are modelled as exact rationals. -/
structure Histogram1D where
  data : List ℚ
  dataW2 : List ℚ
  underflow : ℚ
  underflowW2 : ℚ
  overflow : ℚ
  overflowW2 : ℚ
  minB : ℚ
  maxB : ℚ
  rinv : ℚ

def Histogram1D.GetNBins (h : Histogram1D) : Nat := h.data.length

/-- The scaled offset computed by Histogram1D::Fill:
`ldiff = (value - min_) * rinv_ * GetNBins()` nudged by `(1 + epsilon)` so
that integers at bin edges do not round down. -/
def Histogram1D.ldiffOf (h : Histogram1D) (value : ℚ) : ℚ :=
  (value - h.minB) * h.rinv * (h.GetNBins : ℚ) * (1 + epsD)

/-- Histogram1D::Fill (Histogram.h lines 81-97): scale the offset into bin
units, nudge by (1 + epsilon), and add the weight to the underflow, the
overflow, or the unique bin floor(ldiff). -/
def Histogram1D.Fill (h : Histogram1D) (value weight : ℚ) : Histogram1D :=
  let ldiff := h.ldiffOf value
  if ldiff < 0 then
    { h with underflow := h.underflow + weight,
             underflowW2 := h.underflowW2 + weight * weight }
  else if (h.GetNBins : ℚ) ≤ ldiff then
    { h with overflow := h.overflow + weight,
             overflowW2 := h.overflowW2 + weight * weight }
  else
    let binno := (⌊ldiff⌋).toNat
    { h with data := h.data.set binno (h.data.getD binno 0 + weight),
             dataW2 := h.dataW2.set binno (h.dataW2.getD binno 0 + weight * weight) }

/-- The Histogram1D constructor (Histogram.h lines 45-62): zeroed bins,
rinv = 1/(max-min); zero bins or max ≤ min is fatal. -/
def mkHistogram1D (nbins : Nat) (mn mx : ℚ) : Option Histogram1D :=
  if nbins = 0 then none
  else if ¬ mn < mx then none
  else some { data := List.replicate nbins 0,
              dataW2 := List.replicate nbins 0,
              underflow := 0, underflowW2 := 0,
              overflow := 0, overflowW2 := 0,
              minB := mn, maxB := mx, rinv := 1 / (mx - mn) }

/-- Sum of all bin contents plus underflow plus overflow. -/
def Histogram1D.total (h : Histogram1D) : ℚ := h.data.sum + h.underflow + h.overflow

/-- Sum of all bin weight-squared contents plus the two W2 accumulators. -/
def Histogram1D.totalW2 (h : Histogram1D) : ℚ :=
  h.dataW2.sum + h.underflowW2 + h.overflowW2

/-- A sequence of fills, as produced by Filler1D's read loop. -/
def Histogram1D.fillAll (h : Histogram1D) (ps : List (ℚ × ℚ)) : Histogram1D :=
  ps.foldl (fun a p => a.Fill p.1 p.2) h

/-! ## Parenthesis sequences and balance (for the unmatched-parenthesis claim) -/

/-- The symbol is a ConstNode (the only shape whose dynamic_cast succeeds in
GetConstValue). -/
def isConstNodeS : SymbolT → Bool
  | .node (.constN _ _) => true
  | _ => false

def charParen (c : Char) : Option Bool :=
  if c = '(' then some true else if c = ')' then some false else none

/-- The subsequence of parenthesis characters of an input string, opens as
true. -/
def parensOfChars (l : List Char) : List Bool := l.filterMap charParen

def symParen (s : SymbolT) : Option Bool :=
  match GetType s with
  | .o .openParand => some true
  | .o .closeParand => some false
  | _ => none

/-- The subsequence of parenthesis symbols of a symbol list. -/
def parensOfSyms (l : List SymbolT) : List Bool := l.filterMap symParen

/-- Run a parenthesis sequence against a nesting counter: none on a close
below zero, otherwise the final depth. -/
def dyckRun : List Bool → Nat → Option Nat
  | [], n => some n
  | true :: r, n => dyckRun r (n + 1)
  | false :: _, 0 => none
  | false :: r, n + 1 => dyckRun r n

/-- A parenthesis sequence is balanced when it runs to depth zero without
ever closing below zero. -/
def balancedParens (l : List Bool) : Prop := dyckRun l 0 = some 0

/-! ## Claim theorems -/

/-- C1 (counterexample): on a row where the root node has size 2 with
elements [0, 1], the event-select wrapper selects the event even though
root.get(0) is zero — SelectEvent is the any-reduction of the whole row, not
the truthiness of get(0). -/
theorem selectEvent_get0_counterexample :
    SelectEvent ⟨2, fun i => (i : ℚ)⟩ = true ∧
    (RowNode.mk 2 (fun i => (i : ℚ))).get 0 = 0 :=
  ⟨by with_unfolding_all rfl, by with_unfolding_all rfl⟩

/-- C1 (amended): the event-select wrapper wraps the root in AnyNode, so the
selection returns true exactly when some element of the root's current row is
nonzero; a root of size 0 rejects the event, and for roots of size 1 this
coincides with the truthiness of root.get(0). -/
theorem selectEvent_any_reduction (root : RowNode) :
    (SelectEvent root = true ↔ ∃ i, i < root.size ∧ root.get i ≠ 0) ∧
    (root.size = 0 → SelectEvent root = false) ∧
    (root.size = 1 → (SelectEvent root = true ↔ root.get 0 ≠ 0)) := by
  have hb : SelectEvent root =
      (List.range root.size).any (fun i => !(decide (root.get i = 0))) := by
    unfold SelectEvent anyNodeEval
    cases hA : (List.range root.size).any (fun i => !(decide (root.get i = 0))) with
    | true =>
      simp only [hA, if_true]
      norm_num
    | false =>
      simp only [hA, Bool.false_eq_true, if_false]
      norm_num
  have hex : ((List.range root.size).any (fun i => !(decide (root.get i = 0))) = true)
      ↔ ∃ i, i < root.size ∧ root.get i ≠ 0 := by
    rw [List.any_eq_true]
    constructor
    · rintro ⟨i, hi, h2⟩
      refine ⟨i, List.mem_range.mp hi, ?_⟩
      simpa using h2
    · rintro ⟨i, hi, hne⟩
      exact ⟨i, List.mem_range.mpr hi, by simpa using hne⟩
  refine ⟨by rw [hb]; exact hex, ?_, ?_⟩
  · intro h0
    rw [hb, h0]
    rfl
  · intro h1
    rw [hb, h1]
    constructor
    · intro h
      rcases List.any_eq_true.mp h with ⟨i, hi, h2⟩
      have hi0 : i = 0 := Nat.lt_one_iff.mp (List.mem_range.mp hi)
      subst hi0
      simpa using h2
    · intro hne
      exact List.any_eq_true.mpr ⟨0, List.mem_range.mpr Nat.one_pos, by simpa using hne⟩

/-- C1 (witness): a size-0 root rejects the event. -/
theorem selectEvent_any_reduction_witness :
    SelectEvent ⟨0, fun _ => 5⟩ = false :=
  (selectEvent_any_reduction ⟨0, fun _ => 5⟩).2.1 rfl

/-- C2: hexadecimal parsing is gated by a search for the two-character
substring "Xx" (the non-null-terminated 2-char array handed to
std::string::find), not by containment of 'x' or 'X'. For the literal
"0x10", which contains 'x', no hex parse is attempted, while the guard does
hold for a literal containing the sequence "Xx"; the decimal U64 / I64 / F64
parses are attempted in the claimed order, as the last three conjuncts
evaluate. -/
theorem parseNumerical_hex_guard_bug :
    hexFindGuard "0x10".data = false ∧
    "0x10".data.contains 'x' = true ∧
    hexFindGuard "0Xx1".data = true ∧
    ParseNumerical "12".data = some (.constN .u64 12) ∧
    ParseNumerical "-3".data = some (.constN .u64 ((2 ^ 64 - 3 : Nat) : ℚ)) ∧
    ParseNumerical "1.5".data = some (.constN .f64 (3 / 2)) := by
  refine ⟨?_, ?_, ?_, ?_, ?_, ?_⟩ <;> with_unfolding_all rfl

/-- C3 (counterexample): the input "1, 2" parses with no fatal error, and
Init returns a single remaining symbol that is a ListSymbol, not a node —
Init checks only that exactly one symbol remains. -/
theorem init_list_remains_counterexample :
    Init Schema.empty "1, 2" =
      .ok [.list [.node (.constN .u64 1), .node (.constN .u64 2)]] ∧
    IsNodeS (.list [.node (.constN .u64 1), .node (.constN .u64 2)]) = false :=
  ⟨by with_unfolding_all rfl, rfl⟩

/-- C3 (amended): after every successful parse the symbol list contains
exactly one symbol (Init fails fatally otherwise); that symbol need not be a
node — it can be a comma-built list, as the counterexample shows. -/
theorem init_exactly_one_symbol (f : Schema) (s : String) (l : List SymbolT)
    (h : Init f s = .ok l) : l.length = 1 := by
  unfold Init at h
  repeat' split at h
  all_goals simp_all

/-- C3 (witness): a successful parse of "2" leaves exactly one symbol. -/
theorem init_exactly_one_symbol_witness :
    Init Schema.empty "2" = .ok [.node (.constN .u64 2)] ∧
    ([SymbolT.node (.constN .u64 2)]).length = 1 :=
  ⟨by with_unfolding_all rfl,
   init_exactly_one_symbol Schema.empty "2" [.node (.constN .u64 2)]
     (by with_unfolding_all rfl)⟩

/-- C4 (counterexample): a record source with a field named
currentEventNumber resolves that identifier to the field, not to the
reserved CounterNode — fields are tried before the reserved meanings, so it
is the reserved meaning that becomes unreachable, not the field. -/
theorem reserved_shadowed_counterexample :
    ParseValueImpl ⟨[("currentEventNumber", .f64)], []⟩ "currentEventNumber" =
      some (.node (.fieldN "currentEventNumber" .f64)) ∧
    ParseValueImpl ⟨[("currentEventNumber", .f64)], []⟩ "currentEventNumber" ≠
      some (.node .counterN) := by
  have e : ParseValueImpl ⟨[("currentEventNumber", .f64)], []⟩ "currentEventNumber" =
      some (.node (.fieldN "currentEventNumber" .f64)) := by with_unfolding_all rfl
  refine ⟨e, ?_⟩
  intro h
  rw [e] at h
  injection h with h1
  injection h1 with h2
  cases h2

/-- C4 (amended): value classification tries field names first and alias
names second, before every reserved identifier, so a field — or, when no
field matches, an alias — whose name collides with any reserved identifier
wins and the reserved meaning is unreachable. -/
theorem parseValueImpl_shadows_reserved (f : Schema) (name : String) (t : NType) :
    (f.fieldType name = some t →
      ParseValueImpl f name = some (.node (.fieldN name t))) ∧
    (f.fieldType name = none → f.aliasType name = some t →
      ParseValueImpl f name = some (.node (.aliasN name t))) := by
  constructor
  · intro hf
    unfold ParseValueImpl
    rw [hf]
  · intro hf ha
    unfold ParseValueImpl
    rw [hf, ha]

/-- C4 (witness): a field named "true" shadows the reserved keyword, and an
alias named "sin" — with no field of that name — shadows the function. -/
theorem parseValueImpl_shadows_reserved_witness :
    ParseValueImpl ⟨[("true", .u64)], []⟩ "true" = some (.node (.fieldN "true" .u64)) ∧
    ParseValueImpl ⟨[], [("sin", .f64)]⟩ "sin" = some (.node (.aliasN "sin" .f64)) :=
  ⟨(parseValueImpl_shadows_reserved ⟨[("true", .u64)], []⟩ "true" .u64).1
      (by with_unfolding_all rfl),
   (parseValueImpl_shadows_reserved ⟨[], [("sin", .f64)]⟩ "sin" .f64).2
      (by with_unfolding_all rfl) (by with_unfolding_all rfl)⟩

/-- C5 (counterexample): chains of `^` reduce left-to-right, so "2^3^2"
builds Pow(Pow(2,3),2) — value 64 — and not the right-associative
Pow(2,Pow(3,2)) — value 512 — that the claim asserts. -/
theorem power_chain_right_assoc_counterexample :
    Init Schema.empty "2^3^2" =
      .ok [.node (.binN .power (.binN .power (.constN .u64 2) (.constN .u64 3))
                  (.constN .u64 2))] ∧
    (NodeExpr.binN .power (.binN .power (.constN .u64 2) (.constN .u64 3)) (.constN .u64 2) ≠
      NodeExpr.binN .power (.constN .u64 2) (.binN .power (.constN .u64 3) (.constN .u64 2))) ∧
    evalScalar (.binN .power (.binN .power (.constN .u64 2) (.constN .u64 3)) (.constN .u64 2))
      = some 64 ∧
    evalScalar (.binN .power (.constN .u64 2) (.binN .power (.constN .u64 3) (.constN .u64 2)))
      = some 512 := by
  refine ⟨by with_unfolding_all rfl, ?_, by with_unfolding_all rfl, by with_unfolding_all rfl⟩
  intro h
  injection h with h1 h2 h3
  cases h2

/-- C5 (amended): `^` is reduced in the function phase, before unary `!`/`~`
and before the multiplicative pass, consuming the adjacent [lhs, ^, rhs]
triple; chains of `^` bind left-associatively; and "2 ^ 10 + 1" builds
Add(Pow(2,10),1) and evaluates to 1025. -/
theorem power_function_phase :
    Init Schema.empty "2 ^ 10 + 1" =
      .ok [.node (.binN .addition
        (.binN .power (.constN .u64 2) (.constN .u64 10)) (.constN .u64 1))] ∧
    evalScalar (.binN .addition (.binN .power (.constN .u64 2) (.constN .u64 10))
        (.constN .u64 1)) = some 1025 ∧
    Init Schema.empty "!2^2" =
      .ok [.node (.notN .logicalNot (.binN .power (.constN .u64 2) (.constN .u64 2)))] ∧
    Init Schema.empty "2*3^2" =
      .ok [.node (.binN .multiplication (.constN .u64 2)
        (.binN .power (.constN .u64 3) (.constN .u64 2)))] ∧
    Init Schema.empty "2 ^ 3 ^ 2" =
      .ok [.node (.binN .power (.binN .power (.constN .u64 2) (.constN .u64 3))
        (.constN .u64 2))] := by
  refine ⟨?_, ?_, ?_, ?_, ?_⟩ <;> with_unfolding_all rfl

/-- Helper for C7: GetNodeValue fails (with the in-expression const error) on
every symbol that is not a ConstNode. -/
theorem getNodeValue_nonconst (t : NType) (s : SymbolT) (h : isConstNodeS s = false) :
    GetNodeValue t s = .error .nonConstIn := by
  cases s with
  | node n =>
    cases n with
    | constN t' v => simp [isConstNodeS] at h
    | fieldN a b => rfl
    | aliasN a b => rfl
    | counterN => rfl
    | unaryN a b => rfl
    | notN a b => rfl
    | binN a b c => rfl
    | fmodN a b => rfl
    | atan2N a b => rfl
    | inN a b => rfl
    | randN => rfl
  | op o => rfl
  | func g => rfl
  | list xs => rfl
  | plain => rfl

/-- Helper for C7: the only error GetNodeValue raises is the non-constant
in-expression error. -/
theorem getNodeValue_error_shape (t : NType) (s : SymbolT) (e : Err)
    (h : GetNodeValue t s = .error e) : e = .nonConstIn := by
  unfold GetNodeValue at h
  split at h
  · cases h
  · injection h with h1
    exact h1.symm

/-- Helper for C7: collecting the list values fails as soon as some element
is not a constant node. -/
theorem mapM_getNodeValue_error (t : NType) :
    ∀ syms : List SymbolT, (∃ s ∈ syms, isConstNodeS s = false) →
      syms.mapM (GetNodeValue t) = .error .nonConstIn := by
  intro syms
  induction syms with
  | nil =>
    rintro ⟨s, hs, _⟩
    cases hs
  | cons a rest ih =>
    rintro ⟨s, hs, hbad⟩
    rw [List.mapM_cons]
    rcases List.mem_cons.mp hs with h1 | h2
    · subst h1
      rw [getNodeValue_nonconst t s hbad]
      rfl
    · cases ha : GetNodeValue t a with
      | error e =>
        have he : e = .nonConstIn := getNodeValue_error_shape t a e ha
        subst he
        rfl
      | ok v =>
        rw [ih ⟨s, h2, hbad⟩]
        rfl

/-- Helper for C7: on an all-constant list, collecting the values casts each
datum to the target type, in order. -/
theorem mapM_getNodeValue_consts (t : NType) :
    ∀ tvs : List (NType × ℚ),
      (tvs.map (fun p => SymbolT.node (.constN p.1 p.2))).mapM (GetNodeValue t) =
        .ok (tvs.map (fun p => castTo t p.2)) := by
  intro tvs
  induction tvs with
  | nil => rfl
  | cons a rest ih =>
    rw [List.map_cons, List.mapM_cons,
        show GetNodeValue t (.node (.constN a.1 a.2)) = .ok (castTo t a.2) from rfl, ih]
    rfl

/-- C7: an `in(x, list)` node fails at parse time with the fatal
non-constant-value error as soon as any list element is not a constant
scalar node; an InNode is built exactly when every element is a constant,
and its data are the constants cast to x's element type. The last conjunct
runs the whole compiler on "in(x, y)" with y a field. -/
theorem inNode_requires_const_list (t : NType) (n1 : NodeExpr) (syms : List SymbolT) :
    ((∃ s ∈ syms, isConstNodeS s = false) →
      GetInNode t n1 (.list syms) = .error .nonConstIn) ∧
    (∀ tvs : List (NType × ℚ),
      syms = tvs.map (fun p => .node (.constN p.1 p.2)) →
      GetInNode t n1 (.list syms) = .ok (.inN n1 (tvs.map (fun p => castTo t p.2)))) ∧
    Init ⟨[("x", .u64), ("y", .f64)], []⟩ "in(x, y)" = .error .nonConstIn := by
  refine ⟨?_, ?_, by with_unfolding_all rfl⟩
  · intro hex
    show (match syms.mapM (GetNodeValue t) with
          | Except.ok data => Except.ok (NodeExpr.inN n1 data)
          | Except.error e => Except.error e) = Except.error Err.nonConstIn
    rw [mapM_getNodeValue_error t syms hex]
  · intro tvs htv
    subst htv
    show (match (tvs.map (fun p => SymbolT.node (.constN p.1 p.2))).mapM (GetNodeValue t) with
          | Except.ok data => Except.ok (NodeExpr.inN n1 data)
          | Except.error e => Except.error e) =
        Except.ok (.inN n1 (tvs.map (fun p => castTo t p.2)))
    rw [mapM_getNodeValue_consts]

/-- C7 (witness): a field element makes the in-list fatal; an all-constant
list builds the InNode with the cast values. -/
theorem inNode_requires_const_list_witness :
    GetInNode .u64 (.fieldN "x" .u64) (.list [.node (.fieldN "y" .f64)]) =
      .error .nonConstIn ∧
    GetInNode .u64 (.fieldN "x" .u64) (.list [.node (.constN .u64 3)]) =
      .ok (.inN (.fieldN "x" .u64) [castTo .u64 3]) :=
  ⟨(inNode_requires_const_list .u64 (.fieldN "x" .u64) [.node (.fieldN "y" .f64)]).1
      ⟨.node (.fieldN "y" .f64), List.mem_cons_self _ _, rfl⟩,
   (inNode_requires_const_list .u64 (.fieldN "x" .u64) [.node (.constN .u64 3)]).2.1
      [(.u64, 3)] rfl⟩

/-- C6: when the value token that starts at pos (trimmed up to the character
before operpos) begins with `+` or `-`, ParseValue hands the position to
ParseOperator exactly when the previously emitted symbol is a node or `)`;
otherwise the sign stays in the token and the shrink loop classifies it.
The last two conjuncts run the tokenizer on both cases: "1-1" emits a binary
minus after a node, "2*-1.5" keeps the sign in the literal after `*`. -/
theorem parseValue_sign_rule (f : Schema) (exp : List Char) (pos : Nat)
    (operpos : Option Nat) (prev : List SymbolT) (endpos : Nat)
    (hend : findLastNotOfUpTo exp wsChars
      (match operpos with
       | none => none
       | some p => some (p - 1)) = some endpos)
    (hsign : (match sublist exp pos (endpos + 1 - pos) with
              | c :: _ => c = '+' || c = '-'
              | [] => false) = true) :
    ((match prev.getLast? with
      | some lastS => IsNodeS lastS || GetType lastS = .o .closeParand
      | none => false) = true →
      ParseValue f exp pos operpos prev = ParseOperator exp pos) ∧
    ((match prev.getLast? with
      | some lastS => IsNodeS lastS || GetType lastS = .o .closeParand
      | none => false) = false →
      ParseValue f exp pos operpos prev =
        valueShrink f exp pos operpos (endpos + 2) (some endpos)) ∧
    ParseSymbols Schema.empty "1-1".data =
      .ok [.node (.constN .u64 1), .op .subtraction, .node (.constN .u64 1)] ∧
    ParseSymbols Schema.empty "2*-1.5".data =
      .ok [.node (.constN .u64 2), .op .multiplication, .node (.constN .f64 (-(3/2)))] := by
  refine ⟨?_, ?_, by with_unfolding_all rfl, by with_unfolding_all rfl⟩
  · intro hprev
    unfold ParseValue
    simp only [hend, hsign, hprev, Bool.true_and, if_true]
  · intro hprev
    unfold ParseValue
    simp only [hend, hsign, hprev, Bool.true_and, Bool.and_false, Bool.false_eq_true, if_false]

/-- C6 (witness): in "1-1" after the node for 1, the minus sign is handed to
the operator parser. -/
theorem parseValue_sign_rule_witness :
    ParseValue Schema.empty "1-1".data 1 none [.node (.constN .u64 1)] =
      ParseOperator "1-1".data 1 :=
  (parseValue_sign_rule Schema.empty "1-1".data 1 none [.node (.constN .u64 1)] 2
    (by with_unfolding_all rfl) (by with_unfolding_all rfl)).1 (by with_unfolding_all rfl)

/-- C9: the identifier `fabs` is accepted as a unary function keyword and
classifies to the same ABS symbol as `abs`, for any record source that does
not itself define a field or alias of these names. -/
theorem fabs_same_as_abs (f : Schema)
    (hf1 : f.fieldType "fabs" = none) (ha1 : f.aliasType "fabs" = none)
    (hf2 : f.fieldType "abs" = none) (ha2 : f.aliasType "abs" = none) :
    ParseValueImpl f "fabs" = some (.func .absF) ∧
    ParseValueImpl f "fabs" = ParseValueImpl f "abs" ∧
    IsUnaryFunctionS (.func .absF) = true := by
  have e1 : ParseValueImpl f "fabs" = some (.func .absF) := by
    unfold ParseValueImpl
    rw [hf1, ha1]
    with_unfolding_all rfl
  have e2 : ParseValueImpl f "abs" = some (.func .absF) := by
    unfold ParseValueImpl
    rw [hf2, ha2]
    with_unfolding_all rfl
  exact ⟨e1, by rw [e1, e2], rfl⟩

/-- C9 (witness): the empty schema leaves "fabs" unshadowed. -/
theorem fabs_same_as_abs_witness :
    ParseValueImpl Schema.empty "fabs" = some (.func .absF) :=
  (fabs_same_as_abs Schema.empty rfl rfl rfl rfl).1

/-- Helper for C10: setting one in-range bin to its old value plus w raises
the list sum by w. -/
theorem list_sum_set (l : List ℚ) (b : Nat) (w : ℚ) (hb : b < l.length) :
    (l.set b (l.getD b 0 + w)).sum = l.sum + w := by
  induction l generalizing b with
  | nil => cases hb
  | cons a rest ih =>
    cases b with
    | zero =>
      simp only [List.set, List.getD_cons_zero, List.sum_cons]
      ring
    | succ b' =>
      simp only [List.set, List.getD_cons_succ, List.sum_cons]
      rw [ih b' (Nat.lt_of_succ_lt_succ hb)]
      ring

/-- Helper for C10: when neither the underflow nor the overflow branch is
taken, floor(ldiff) is a valid bin index. -/
theorem fill_bin_lt (h : Histogram1D) (v : ℚ)
    (h1 : ¬ h.ldiffOf v < 0) (h2 : ¬ (h.GetNBins : ℚ) ≤ h.ldiffOf v) :
    (⌊h.ldiffOf v⌋).toNat < h.data.length := by
  have h0 : (0 : ℚ) ≤ h.ldiffOf v := not_lt.mp h1
  have hN : h.ldiffOf v < (h.GetNBins : ℚ) := not_le.mp h2
  have hfl : (0 : ℤ) ≤ ⌊h.ldiffOf v⌋ := Int.floor_nonneg.mpr h0
  have hlt : ⌊h.ldiffOf v⌋ < (h.GetNBins : ℤ) := by
    rw [Int.floor_lt]
    push_cast
    exact hN
  unfold Histogram1D.GetNBins at hlt
  omega

/-- Helper for C10: a single Fill raises bins+underflow+overflow by the
weight. -/
theorem fill_total (h : Histogram1D) (v w : ℚ) : (h.Fill v w).total = h.total + w := by
  unfold Histogram1D.Fill Histogram1D.total
  dsimp only
  split
  · dsimp only
    ring
  · split
    · dsimp only
      ring
    next h1 h2 =>
      dsimp only
      rw [list_sum_set h.data _ w (fill_bin_lt h v h1 h2)]
      ring

/-- Helper for C10: Fill preserves the bin-vector lengths. -/
theorem fill_dims (h : Histogram1D) (v w : ℚ) :
    (h.Fill v w).data.length = h.data.length ∧
    (h.Fill v w).dataW2.length = h.dataW2.length := by
  unfold Histogram1D.Fill
  dsimp only
  split
  · exact ⟨rfl, rfl⟩
  · split
    · exact ⟨rfl, rfl⟩
    · exact ⟨by simp, by simp⟩

/-- Helper for C10: a single Fill raises the weight-squared totals by w*w
(given matching vector lengths, as the constructor guarantees). -/
theorem fill_totalW2 (h : Histogram1D) (v w : ℚ) (hw : h.dataW2.length = h.data.length) :
    (h.Fill v w).totalW2 = h.totalW2 + w * w := by
  unfold Histogram1D.Fill Histogram1D.totalW2
  dsimp only
  split
  · dsimp only
    ring
  · split
    · dsimp only
      ring
    next h1 h2 =>
      dsimp only
      rw [list_sum_set h.dataW2 _ (w * w) (hw ▸ fill_bin_lt h v h1 h2)]
      ring

/-- Helper for C10: conservation over a sequence of fills. -/
theorem fillAll_total (ps : List (ℚ × ℚ)) :
    ∀ h : Histogram1D, (h.fillAll ps).total = h.total + (ps.map (fun p => p.2)).sum := by
  induction ps with
  | nil =>
    intro h
    simp [Histogram1D.fillAll]
  | cons a rest ih =>
    intro h
    simp only [Histogram1D.fillAll, List.foldl_cons] at ih ⊢
    rw [ih (h.Fill a.1 a.2), fill_total h a.1 a.2, List.map_cons, List.sum_cons]
    ring

/-- Helper for C10: weight-squared conservation over a sequence of fills. -/
theorem fillAll_totalW2 (ps : List (ℚ × ℚ)) :
    ∀ h : Histogram1D, h.dataW2.length = h.data.length →
      (h.fillAll ps).totalW2 = h.totalW2 + (ps.map (fun p => p.2 * p.2)).sum := by
  induction ps with
  | nil =>
    intro h _
    simp [Histogram1D.fillAll]
  | cons a rest ih =>
    intro h hw
    simp only [Histogram1D.fillAll, List.foldl_cons] at ih ⊢
    have hw2 : (h.Fill a.1 a.2).dataW2.length = (h.Fill a.1 a.2).data.length := by
      rw [(fill_dims h a.1 a.2).1, (fill_dims h a.1 a.2).2, hw]
    rw [ih (h.Fill a.1 a.2) hw2, fill_totalW2 h a.1 a.2 hw, List.map_cons, List.sum_cons]
    ring

/-- C10: every Fill adds its weight to exactly one accumulator — underflow
when the scaled offset is negative, overflow when it is at least the number
of bins, otherwise the unique bin floor(ldiff) — so a fill raises the sum of
bins plus underflow plus overflow by exactly the weight, a sequence of fills
by the sum of the weights, and likewise for the weight-squared sums. -/
theorem fill_conservation (h : Histogram1D) (v w : ℚ) (ps : List (ℚ × ℚ)) :
    (h.Fill v w).total = h.total + w ∧
    (h.dataW2.length = h.data.length → (h.Fill v w).totalW2 = h.totalW2 + w * w) ∧
    (((h.Fill v w).underflow = h.underflow + w ∧ (h.Fill v w).data = h.data ∧
        (h.Fill v w).overflow = h.overflow) ∨
     ((h.Fill v w).overflow = h.overflow + w ∧ (h.Fill v w).data = h.data ∧
        (h.Fill v w).underflow = h.underflow) ∨
     (∃ b, b < h.data.length ∧
        (h.Fill v w).data = h.data.set b (h.data.getD b 0 + w) ∧
        (h.Fill v w).underflow = h.underflow ∧ (h.Fill v w).overflow = h.overflow)) ∧
    (h.fillAll ps).total = h.total + (ps.map (fun p => p.2)).sum ∧
    (h.dataW2.length = h.data.length →
      (h.fillAll ps).totalW2 = h.totalW2 + (ps.map (fun p => p.2 * p.2)).sum) := by
  refine ⟨fill_total h v w, fun hw => fill_totalW2 h v w hw, ?_, fillAll_total ps h,
    fun hw => fillAll_totalW2 ps h hw⟩
  unfold Histogram1D.Fill
  dsimp only
  split
  · exact Or.inl ⟨rfl, rfl, rfl⟩
  · split
    · exact Or.inr (Or.inl ⟨rfl, rfl, rfl⟩)
    next h1 h2 =>
      exact Or.inr (Or.inr ⟨(⌊h.ldiffOf v⌋).toNat, fill_bin_lt h v h1 h2, rfl, rfl, rfl⟩)

/-- C10 (witness): a concrete two-bin histogram conserves the weight-squared
total. -/
theorem fill_conservation_witness :
    (Histogram1D.totalW2
      ((Histogram1D.mk [0, 0] [0, 0] 0 0 0 0 0 1 1).Fill (1/2) 3)) =
      (Histogram1D.mk [0, 0] [0, 0] 0 0 0 0 0 1 1).totalW2 + 3 * 3 :=
  (fill_conservation (Histogram1D.mk [0, 0] [0, 0] 0 0 0 0 0 1 1) (1/2) 3 []).2.1 rfl

theorem dyckRun_append : ∀ (a b : List Bool) (n : Nat),
    dyckRun (a ++ b) n = (dyckRun a n).bind (fun m => dyckRun b m) := by
  intro a
  induction a with
  | nil => intro b n; rfl
  | cons x r ih =>
    intro b n
    cases x with
    | true => simpa using ih b (n + 1)
    | false =>
      cases n with
      | zero => rfl
      | succ n' => simpa using ih b n'

theorem dyckRun_shift : ∀ (a : List Bool) (n m : Nat), dyckRun a n = some m →
    dyckRun a (n + 1) = some (m + 1) := by
  intro a
  induction a with
  | nil =>
    intro n m h
    injection h with h1
    subst h1
    rfl
  | cons x r ih =>
    intro n m h
    cases x with
    | true => exact ih (n + 1) m h
    | false =>
      cases n with
      | zero => cases h
      | succ n' => exact ih n' m h

theorem getType_node (n : NodeExpr) :
    GetType (SymbolT.node n) = (match elemType n with
      | NType.f64 => SymType.floatingPointNode
      | NType.i64 => SymType.signedNode
      | NType.u64 => SymType.unsignedNode) := rfl

theorem symParen_node (n : NodeExpr) : symParen (.node n) = none := by
  unfold symParen
  rw [getType_node]
  cases he : elemType n <;> rfl

theorem eq_open_of_getType (s : SymbolT) (h : GetType s = SymType.o .openParand) :
    s = .op .openParand := by
  cases s with
  | op o =>
    injection h with h1
    rw [h1]
  | func f => exact absurd h (by simp [GetType])
  | node n =>
    exfalso
    rw [getType_node] at h
    cases he : elemType n <;> rw [he] at h <;> simp at h
  | list xs => exact absurd h (by simp [GetType])
  | plain => exact absurd h (by simp [GetType])

theorem eq_close_of_getType (s : SymbolT) (h : GetType s = SymType.o .closeParand) :
    s = .op .closeParand := by
  cases s with
  | op o =>
    injection h with h1
    rw [h1]
  | func f => exact absurd h (by simp [GetType])
  | node n =>
    exfalso
    rw [getType_node] at h
    cases he : elemType n <;> rw [he] at h <;> simp at h
  | list xs => exact absurd h (by simp [GetType])
  | plain => exact absurd h (by simp [GetType])

theorem symParen_none_of_getType (s : SymbolT) (h1 : GetType s ≠ SymType.o .openParand)
    (h2 : GetType s ≠ SymType.o .closeParand) : symParen s = none := by
  unfold symParen
  split
  · exact absurd (by assumption) h1
  · exact absurd (by assumption) h2
  · rfl

theorem parenScanA_none : ∀ (l acc : List SymbolT),
    parenScanA l acc = .ok none → ∀ s ∈ l, symParen s = none := by
  intro l
  induction l with
  | nil =>
    intro acc _ s hs
    cases hs
  | cons a rest ih =>
    intro acc h s hs
    unfold parenScanA at h
    split at h
    · split at h <;> cases h
    · cases h
    next hg1 hg2 =>
      rcases List.mem_cons.mp hs with h1 | h2
      · subst h1
        exact symParen_none_of_getType s hg1 hg2
      · exact ih (a :: acc) h s h2

theorem parenScanB_decomp : ∀ (l : List SymbolT) (n : Nat) (iacc : List SymbolT)
    (inner after : List SymbolT),
    parenScanB l n iacc = .ok (inner, after) →
    ∃ mid, inner = iacc.reverse ++ mid ∧ l = mid ++ .op .closeParand :: after := by
  intro l
  induction l with
  | nil =>
    intro n iacc inner after h
    cases h
  | cons a rest ih =>
    intro n iacc inner after h
    unfold parenScanB at h
    split at h
    next hg =>
      rcases ih (n + 1) (a :: iacc) inner after h with ⟨mid, h1, h2⟩
      refine ⟨a :: mid, ?_, ?_⟩
      · rw [h1]
        simp
      · rw [h2]
        rfl
    next hg =>
      split at h
      next hn =>
        rw [Except.ok.injEq, Prod.mk.injEq] at h
        obtain ⟨hi, ha⟩ := h
        refine ⟨[], by simp [hi], ?_⟩
        rw [eq_close_of_getType a hg, ha]
        rfl
      next hn =>
        rcases ih (n - 1) (a :: iacc) inner after h with ⟨mid, h1, h2⟩
        refine ⟨a :: mid, ?_, ?_⟩
        · rw [h1]
          simp
        · rw [h2]
          rfl
    next hg1 hg2 =>
      rcases ih n (a :: iacc) inner after h with ⟨mid, h1, h2⟩
      refine ⟨a :: mid, ?_, ?_⟩
      · rw [h1]
        simp
      · rw [h2]
        rfl

theorem parenScanA_decomp : ∀ (l acc before inner after : List SymbolT),
    parenScanA l acc = .ok (some (before, inner, after)) →
    ∃ pre, before = acc.reverse ++ pre ∧
      l = pre ++ .op .openParand :: (inner ++ .op .closeParand :: after) ∧
      ∀ s ∈ pre, symParen s = none := by
  intro l
  induction l with
  | nil =>
    intro acc b i a h
    cases h
  | cons x rest ih =>
    intro acc b i a h
    unfold parenScanA at h
    split at h
    next hg =>
      split at h
      next inner' after' hB =>
        rw [Except.ok.injEq, Option.some.injEq, Prod.mk.injEq] at h
        obtain ⟨hb, hrest⟩ := h
        rw [Prod.mk.injEq] at hrest
        obtain ⟨hi, ha⟩ := hrest
        rcases parenScanB_decomp rest 1 [] inner' after' hB with ⟨mid, h1, h2⟩
        simp only [List.reverse_nil, List.nil_append] at h1
        refine ⟨[], by simp [hb], ?_, by intro s hs; cases hs⟩
        rw [eq_open_of_getType x hg, h2, ← hi, ← ha, ← h1]
        rfl
      next e hB => cases h
    next => cases h
    next hg1 hg2 =>
      rcases ih (x :: acc) b i a h with ⟨pre, h1, h2, h3⟩
      refine ⟨x :: pre, ?_, ?_, ?_⟩
      · rw [h1]
        simp
      · rw [h2]
        rfl
      · intro s hs
        rcases List.mem_cons.mp hs with h4 | hmem
        · subst h4
          exact symParen_none_of_getType s hg1 hg2
        · exact h3 s hmem

theorem doGetNodeBin_symParen (s1 s2 : SymbolT) (k : BinKind) (nn : SymbolT)
    (h : DoGetNodeBin s1 s2 k = .ok nn) : symParen nn = none := by
  unfold DoGetNodeBin at h
  repeat' split at h
  all_goals try cases h
  all_goals first | exact symParen_node _ | rfl

theorem doGetNodeUn_symParen (s1 : SymbolT) (k : UnKind) (nn : SymbolT)
    (h : DoGetNodeUn s1 k = .ok nn) : symParen nn = none := by
  unfold DoGetNodeUn at h
  repeat' split at h
  all_goals try cases h
  all_goals exact symParen_node _

theorem getNodeVoid_symParen (f : FuncType) : symParen (GetNodeVoid f) = none := by
  cases f <;> first | exact symParen_node _ | rfl

theorem replaceBinOpScan_noparens (test : OpType → Bool) :
    ∀ fuel done rest out,
      replaceBinOpScan test fuel done rest = .ok out →
      (∀ s ∈ done, symParen s = none) → (∀ s ∈ rest, symParen s = none) →
      ∀ s ∈ out, symParen s = none := by
  intro fuel
  induction fuel with
  | zero =>
    intro done rest out h
    cases h
  | succ fuel ih =>
    intro done rest out h hd hr
    cases rest with
    | nil =>
      unfold replaceBinOpScan at h
      injection h with h1
      subst h1
      intro s hs
      exact hd s (List.mem_reverse.mp hs)
    | cons a rtail =>
      have hr' : ∀ s ∈ rtail, symParen s = none := fun s hs => hr s (List.mem_cons_of_mem a hs)
      have ha : symParen a = none := hr a (List.mem_cons_self a rtail)
      unfold replaceBinOpScan at h
      split at h
      next o =>
        split at h
        · split at h
          · cases h
          · cases h
          next n1 dtail n2 rtail2 =>
            split at h
            · split at h
              next nn hdg =>
                refine ih (nn :: dtail) rtail2 out h ?_ ?_
                · intro s hs
                  rcases List.mem_cons.mp hs with h1 | h2
                  · subst h1
                    exact doGetNodeBin_symParen _ _ _ _ hdg
                  · exact hd s (List.mem_cons_of_mem n1 h2)
                · intro s hs
                  exact hr' s (List.mem_cons_of_mem n2 hs)
              next e hdg => cases h
            · cases h
        · refine ih _ rtail out h ?_ hr'
          intro s hs
          rcases List.mem_cons.mp hs with h1 | h2
          · subst h1
            exact ha
          · exact hd s h2
      next =>
        refine ih (a :: done) rtail out h ?_ hr'
        intro s hs
        rcases List.mem_cons.mp hs with h1 | h2
        · subst h1
          exact ha
        · exact hd s h2

theorem replaceUnaryScan_noparens :
    ∀ fuel done rest out,
      replaceUnaryScan fuel done rest = .ok out →
      (∀ s ∈ done, symParen s = none) → (∀ s ∈ rest, symParen s = none) →
      ∀ s ∈ out, symParen s = none := by
  intro fuel
  induction fuel with
  | zero =>
    intro done rest out h
    cases h
  | succ fuel ih =>
    intro done rest out h hd hr
    cases rest with
    | nil =>
      unfold replaceUnaryScan at h
      injection h with h1
      subst h1
      intro s hs
      exact hd s (List.mem_reverse.mp hs)
    | cons a rtail =>
      have hr' : ∀ s ∈ rtail, symParen s = none := fun s hs => hr s (List.mem_cons_of_mem a hs)
      have ha : symParen a = none := hr a (List.mem_cons_self a rtail)
      unfold replaceUnaryScan at h
      split at h
      next o =>
        split at h
        · split at h
          · cases h
          next n1 rtail2 =>
            split at h
            · split at h
              next nn hdg =>
                refine ih (nn :: done) rtail2 out h ?_ ?_
                · intro s hs
                  rcases List.mem_cons.mp hs with h1 | h2
                  · subst h1
                    exact doGetNodeUn_symParen _ _ _ hdg
                  · exact hd s h2
                · intro s hs
                  exact hr' s (List.mem_cons_of_mem n1 hs)
              next e hdg => cases h
            · cases h
        · refine ih _ rtail out h ?_ hr'
          intro s hs
          rcases List.mem_cons.mp hs with h1 | h2
          · subst h1
            exact ha
          · exact hd s h2
      next =>
        refine ih (a :: done) rtail out h ?_ hr'
        intro s hs
        rcases List.mem_cons.mp hs with h1 | h2
        · subst h1
          exact ha
        · exact hd s h2

theorem replaceCommaScan_noparens :
    ∀ fuel done rest out,
      replaceCommaScan fuel done rest = .ok out →
      (∀ s ∈ done, symParen s = none) → (∀ s ∈ rest, symParen s = none) →
      ∀ s ∈ out, symParen s = none := by
  intro fuel
  induction fuel with
  | zero =>
    intro done rest out h
    cases h
  | succ fuel ih =>
    intro done rest out h hd hr
    cases rest with
    | nil =>
      unfold replaceCommaScan at h
      injection h with h1
      subst h1
      intro s hs
      exact hd s (List.mem_reverse.mp hs)
    | cons a rtail =>
      have hr' : ∀ s ∈ rtail, symParen s = none := fun s hs => hr s (List.mem_cons_of_mem a hs)
      have ha : symParen a = none := hr a (List.mem_cons_self a rtail)
      unfold replaceCommaScan at h
      split at h
      · split at h
        · exact ih [] rtail out h (fun s hs => absurd hs (List.not_mem_nil s)) hr'
        · injection h with h1
          subst h1
          intro s hs
          exact hd s (List.mem_reverse.mp hs)
        next n1 dtail n2 rtail2 =>
          refine ih _ rtail2 out h ?_ ?_
          · intro s hs
            rcases List.mem_cons.mp hs with h1 | h2
            · subst h1
              split
              · rfl
              · rfl
            · exact hd s (List.mem_cons_of_mem n1 h2)
          · intro s hs
            exact hr' s (List.mem_cons_of_mem n2 hs)
      next =>
        refine ih (a :: done) rtail out h ?_ hr'
        intro s hs
        rcases List.mem_cons.mp hs with h1 | h2
        · subst h1
          exact ha
        · exact hd s h2

theorem funcStep_noparens (f : FuncType) (done rest done1 rest1 : List SymbolT)
    (h : funcStep f done rest = .ok (done1, rest1))
    (hd : ∀ s ∈ done, symParen s = none) (hr : ∀ s ∈ rest, symParen s = none) :
    (∀ s ∈ done1, symParen s = none) ∧ (∀ s ∈ rest1, symParen s = none) := by
  unfold funcStep at h
  split at h
  · split at h
    · cases h
    next n1 rtail =>
      split at h
      · split at h
        · cases h
        · split at h
          next nn hdg =>
            cases h
            constructor
            · intro s hs
              rcases List.mem_cons.mp hs with h1 | h2
              · subst h1
                exact doGetNodeUn_symParen _ _ _ hdg
              · exact hd s h2
            · intro s hs
              exact hr s (List.mem_cons_of_mem n1 hs)
          next e hdg => cases h
      · cases h
  · split at h
    · split at h
      · cases h
      · cases h
        constructor
        · intro s hs
          rcases List.mem_cons.mp hs with h1 | h2
          · subst h1
            exact getNodeVoid_symParen f
          · exact hd s h2
        · exact hr
    · split at h
      · cases h
      next arg rtail =>
        split at h
        next args =>
          split at h
          · cases h
          · cases h
          next n1 n2 =>
            split at h
            · split at h
              next nn hdg =>
                cases h
                constructor
                · intro s hs
                  rcases List.mem_cons.mp hs with h1 | h2
                  · subst h1
                    exact doGetNodeBin_symParen _ _ _ _ hdg
                  · exact hd s h2
                · intro s hs
                  exact hr s (List.mem_cons_of_mem _ hs)
              next e hdg => cases h
            · cases h
          · cases h
        next => cases h

theorem replaceFunScan_noparens :
    ∀ fuel done rest out,
      replaceFunScan fuel done rest = .ok out →
      (∀ s ∈ done, symParen s = none) → (∀ s ∈ rest, symParen s = none) →
      ∀ s ∈ out, symParen s = none := by
  intro fuel
  induction fuel with
  | zero =>
    intro done rest out h
    cases h
  | succ fuel ih =>
    intro done rest out h hd hr
    cases rest with
    | nil =>
      unfold replaceFunScan at h
      injection h with h1
      subst h1
      intro s hs
      exact hd s (List.mem_reverse.mp hs)
    | cons a rtail =>
      have hr' : ∀ s ∈ rtail, symParen s = none := fun s hs => hr s (List.mem_cons_of_mem a hs)
      have ha : symParen a = none := hr a (List.mem_cons_self a rtail)
      unfold replaceFunScan at h
      split at h
      next f =>
        split at h
        next done1 rest1 hstep =>
          rcases funcStep_noparens f done rtail done1 rest1 hstep hd hr' with ⟨hd1, hr1⟩
          exact ih done1 rest1 out h hd1 hr1
        next e hstep => cases h
      next =>
        split at h
        · cases h
        · cases h
        next n1 dtail n2 rtail2 =>
          split at h
          · split at h
            next nn hdg =>
              refine ih (nn :: dtail) rtail2 out h ?_ ?_
              · intro s hs
                rcases List.mem_cons.mp hs with h1 | h2
                · subst h1
                  exact doGetNodeBin_symParen _ _ _ _ hdg
                · exact hd s (List.mem_cons_of_mem n1 h2)
              · intro s hs
                exact hr' s (List.mem_cons_of_mem n2 hs)
            next e hdg => cases h
          · cases h
      next =>
        refine ih (a :: done) rtail out h ?_ hr'
        intro s hs
        rcases List.mem_cons.mp hs with h1 | h2
        · subst h1
          exact ha
        · exact hd s h2

theorem parensOfSyms_nil_of (l : List SymbolT) (h : ∀ s ∈ l, symParen s = none) :
    parensOfSyms l = [] := List.filterMap_eq_nil_iff.mpr h

theorem parseStep_ok_balanced :
    ∀ fuel : Nat, ∀ tag : Bool, ∀ l l' : List SymbolT,
      parseStep fuel tag l = .ok l' →
      balancedParens (parensOfSyms l) ∧ parensOfSyms l' = [] := by
  intro fuel
  induction fuel with
  | zero =>
    intro tag l l' h
    cases h
  | succ fuel ih =>
    intro tag l l' h
    cases tag with
    | false =>
      unfold parseStep at h
      split at h
      next e hA => cases h
      next hA =>
        cases h
        have hnp := parensOfSyms_nil_of l (parenScanA_none l [] hA)
        rw [hnp]
        exact ⟨rfl, rfl⟩
      next before inner after hA =>
        split at h
        next e hIn => cases h
        next inner1 hIn =>
          rcases ih true inner inner1 hIn with ⟨hbal_in, hnp_in1⟩
          rcases ih false (before ++ inner1 ++ after) l' h with ⟨hbal_rest, hnp_out⟩
          rcases parenScanA_decomp l [] before inner after hA with ⟨pre, hpre, hdec, hfree⟩
          simp only [List.reverse_nil, List.nil_append] at hpre
          subst hpre
          have hPb : parensOfSyms before = [] := parensOfSyms_nil_of before hfree
          have hPrest : parensOfSyms (before ++ inner1 ++ after) = parensOfSyms after := by
            unfold parensOfSyms
            rw [List.filterMap_append, List.filterMap_append]
            unfold parensOfSyms at hPb hnp_in1
            rw [hPb, hnp_in1]
            rfl
          rw [hPrest] at hbal_rest
          refine ⟨?_, hnp_out⟩
          rw [hdec]
          unfold parensOfSyms
          rw [List.filterMap_append, List.filterMap_cons]
          unfold parensOfSyms at hPb
          rw [hPb]
          have hcons : (symParen (SymbolT.op .openParand)) = some true := rfl
          rw [hcons]
          unfold balancedParens
          have hmid : List.filterMap symParen (inner ++ SymbolT.op OpType.closeParand :: after) =
              List.filterMap symParen inner ++ false :: List.filterMap symParen after := by
            rw [List.filterMap_append, List.filterMap_cons]
            rfl
          rw [hmid]
          show dyckRun (true :: (List.filterMap symParen inner ++
              false :: List.filterMap symParen after)) 0 = some 0
          have step1 : dyckRun (true :: (List.filterMap symParen inner ++
              false :: List.filterMap symParen after)) 0 =
              dyckRun (List.filterMap symParen inner ++
                false :: List.filterMap symParen after) 1 := rfl
          rw [step1, dyckRun_append]
          have hin1 : dyckRun (List.filterMap symParen inner) 1 = some 1 :=
            dyckRun_shift _ 0 0 hbal_in
          rw [hin1]
          show dyckRun (false :: List.filterMap symParen after) 1 = some 0
          exact hbal_rest
    | true =>
      unfold parseStep at h
      split at h
      next hemp =>
        cases h
        rw [List.isEmpty_iff] at hemp
        subst hemp
        exact ⟨rfl, rfl⟩
      next hemp =>
        split at h
        next e hP => cases h
        next l1 hP =>
          rcases ih false l l1 hP with ⟨hbal, hnp1⟩
          refine ⟨hbal, ?_⟩
          have hl1 : ∀ s ∈ l1, symParen s = none := List.filterMap_eq_nil_iff.mp hnp1
          have hnil : ∀ s ∈ ([] : List SymbolT), symParen s = none :=
            fun s hs => absurd hs (List.not_mem_nil s)
          split at h
          next e h2 => cases h
          next l2 h2 =>
            have hl2 := replaceFunScan_noparens _ [] l1 l2 h2 hnil hl1
            split at h
            next e h3 => cases h
            next l3 h3 =>
              have hl3 := replaceUnaryScan_noparens _ [] l2 l3 h3 hnil hl2
              split at h
              next e h4 => cases h
              next l4 h4 =>
                have hl4 := replaceBinOpScan_noparens _ _ [] l3 l4 h4 hnil hl3
                split at h
                next e h5 => cases h
                next l5 h5 =>
                  have hl5 := replaceBinOpScan_noparens _ _ [] l4 l5 h5 hnil hl4
                  split at h
                  next e h6 => cases h
                  next l6 h6 =>
                    have hl6 := replaceBinOpScan_noparens _ _ [] l5 l6 h6 hnil hl5
                    split at h
                    next e h7 => cases h
                    next l7 h7 =>
                      have hl7 := replaceBinOpScan_noparens _ _ [] l6 l7 h7 hnil hl6
                      split at h
                      next e h8 => cases h
                      next l8 h8 =>
                        have hl8 := replaceBinOpScan_noparens _ _ [] l7 l8 h8 hnil hl7
                        split at h
                        next e h9 => cases h
                        next l9 h9 =>
                          have hl9 := replaceBinOpScan_noparens _ _ [] l8 l9 h9 hnil hl8
                          split at h
                          next e h10 => cases h
                          next l10 h10 =>
                            have hl10 := replaceBinOpScan_noparens _ _ [] l9 l10 h10 hnil hl9
                            split at h
                            next e h11 => cases h
                            next l11 h11 =>
                              have hl11 := replaceBinOpScan_noparens _ _ [] l10 l11 h11 hnil hl10
                              exact parensOfSyms_nil_of l'
                                (replaceCommaScan_noparens _ [] l11 l' h hnil hl11)

theorem scanFrom_some (p : Char → Bool) (exp : List Char) :
    ∀ fuel pos r, scanFrom p exp pos fuel = some r →
      pos ≤ r ∧ r < exp.length ∧ p (exp.getD r ' ') = true ∧
      ∀ i, pos ≤ i → i < r → p (exp.getD i ' ') = false := by
  intro fuel
  induction fuel with
  | zero =>
    intro pos r h
    cases h
  | succ fuel ih =>
    intro pos r h
    unfold scanFrom at h
    split at h
    · split at h
      · injection h with h1
        subst h1
        refine ⟨Nat.le_refl _, by assumption, by assumption, ?_⟩
        intro i h1 h2
        omega
      next hp =>
        rcases ih (pos + 1) r h with ⟨ha, hb, hc, hd⟩
        refine ⟨by omega, hb, hc, ?_⟩
        intro i h1 h2
        rcases Nat.eq_or_lt_of_le h1 with h3 | h3
        · subst h3
          exact Bool.eq_false_iff.mpr hp
        · exact hd i h3 h2
    · cases h

theorem scanFrom_none (p : Char → Bool) (exp : List Char) :
    ∀ fuel pos, scanFrom p exp pos fuel = none → exp.length ≤ pos + fuel →
      ∀ i, pos ≤ i → i < exp.length → p (exp.getD i ' ') = false := by
  intro fuel
  induction fuel with
  | zero =>
    intro pos _ hle i h1 h2
    omega
  | succ fuel ih =>
    intro pos h hle i h1 h2
    unfold scanFrom at h
    split at h
    · split at h
      · cases h
      next hp =>
        rcases Nat.eq_or_lt_of_le h1 with h3 | h3
        · subst h3
          exact Bool.eq_false_iff.mpr hp
        · exact ih (pos + 1) h (by omega) i h3 h2
    next hpos =>
      omega

theorem findFirstSuch_some (p : Char → Bool) (exp : List Char) (pos r : Nat)
    (h : findFirstSuch p exp pos = some r) :
    pos ≤ r ∧ r < exp.length ∧ p (exp.getD r ' ') = true ∧
      ∀ i, pos ≤ i → i < r → p (exp.getD i ' ') = false :=
  scanFrom_some p exp (exp.length + 1) pos r h

theorem findFirstSuch_none (p : Char → Bool) (exp : List Char) (pos : Nat)
    (h : findFirstSuch p exp pos = none) :
    ∀ i, pos ≤ i → i < exp.length → p (exp.getD i ' ') = false :=
  scanFrom_none p exp (exp.length + 1) pos h (by omega)

theorem scanDown_some (p : Char → Bool) (exp : List Char) :
    ∀ k r, scanDown p exp k = some r → r < k ∧ p (exp.getD r ' ') = true := by
  intro k
  induction k with
  | zero =>
    intro r h
    cases h
  | succ k ih =>
    intro r h
    unfold scanDown at h
    split at h
    · injection h with h1
      subst h1
      exact ⟨Nat.lt_succ_self _, by assumption⟩
    · rcases ih r h with ⟨h1, h2⟩
      exact ⟨Nat.lt_succ_of_lt h1, h2⟩

theorem findLastSuch_some_bound (p : Char → Bool) (exp : List Char) (b r : Nat)
    (h : findLastSuch p exp (some b) = some r) :
    r ≤ b ∧ r < exp.length ∧ p (exp.getD r ' ') = true := by
  have h' : scanDown p exp (min (b + 1) exp.length) = some r := h
  rcases scanDown_some p exp _ r h' with ⟨h1, h2⟩
  rw [Nat.lt_min] at h1
  refine ⟨by omega, by omega, h2⟩

theorem charParen_ne (c : Char) (h1 : ¬ c = '(') (h2 : ¬ c = ')') : charParen c = none := by
  unfold charParen
  rw [if_neg h1, if_neg h2]

theorem parensOfChars_drop_free (exp : List Char) :
    ∀ d pos, (∀ i, pos ≤ i → i < pos + d → charParen (exp.getD i ' ') = none) →
      parensOfChars (exp.drop pos) = parensOfChars (exp.drop (pos + d)) := by
  intro d
  induction d with
  | zero =>
    intro pos _
    rfl
  | succ d ih =>
    intro pos hfree
    by_cases hlen : pos < exp.length
    · have hdrop : exp.drop pos = exp.getD pos ' ' :: exp.drop (pos + 1) := by
        rw [List.getD_eq_getElem exp ' ' hlen]
        exact List.drop_eq_getElem_cons hlen
      rw [hdrop]
      unfold parensOfChars
      rw [List.filterMap_cons, hfree pos (Nat.le_refl pos) (by omega)]
      have hrec := ih (pos + 1) (fun i ha hb => hfree i (by omega) (by omega))
      unfold parensOfChars at hrec
      rw [hrec, show pos + 1 + d = pos + (d + 1) from by omega]
    · rw [List.drop_eq_nil_of_le (Nat.le_of_not_lt hlen),
          List.drop_eq_nil_of_le (by omega)]

theorem parensOfChars_drop_free' (exp : List Char) (pos j : Nat) (hle : pos ≤ j)
    (hfree : ∀ i, pos ≤ i → i < j → charParen (exp.getD i ' ') = none) :
    parensOfChars (exp.drop pos) = parensOfChars (exp.drop j) := by
  have h := parensOfChars_drop_free exp (j - pos) pos (fun i h1 h2 => hfree i h1 (by omega))
  rwa [show pos + (j - pos) = j from by omega] at h

theorem operTable_parens : ∀ pr ∈ operTable,
    symParen pr.2 = none ∨ pr.1 = ['('] ∨ pr.1 = [')'] := by decide

theorem parseOperatorImpl_paren_shape (lc : List Char) (s : SymbolT)
    (h : ParseOperatorImpl lc = some s) :
    symParen s = none ∨ lc = ['('] ∨ lc = [')'] := by
  unfold ParseOperatorImpl at h
  cases hf : operTable.find? (fun p => p.1 == lc) with
  | none =>
    rw [hf] at h
    cases h
  | some pr =>
    rw [hf] at h
    injection h with h1
    have hmem := List.mem_of_find?_eq_some hf
    have hkey : pr.1 = lc := by simpa using List.find?_some hf
    rcases operTable_parens pr hmem with h2 | h2 | h2
    · left
      rw [← h1]
      exact h2
    · right
      left
      rw [← hkey, h2]
    · right
      right
      rw [← hkey, h2]

theorem not_extend_paren :
    operExtendChars.contains '(' = false ∧ operExtendChars.contains ')' = false := by decide

theorem operExtendAux_spec (exp : List Char) :
    ∀ fuel e, e ≤ operExtendAux exp e fuel ∧
      ∀ i, e < i → i ≤ operExtendAux exp e fuel →
        i < exp.length ∧ operExtendChars.contains (exp.getD i ' ') = true := by
  intro fuel
  induction fuel with
  | zero =>
    intro e
    unfold operExtendAux
    exact ⟨Nat.le_refl _, fun i h1 h2 => by omega⟩
  | succ fuel ih =>
    intro e
    unfold operExtendAux
    split
    next hcond =>
      rw [Bool.and_eq_true, decide_eq_true_eq] at hcond
      rcases ih (e + 1) with ⟨ha, hb⟩
      refine ⟨by omega, ?_⟩
      intro i h1 h2
      rcases Nat.eq_or_lt_of_le h1 with h3 | h3
      · subst h3
        exact ⟨hcond.1, hcond.2⟩
      · exact hb i h3 h2
    · exact ⟨Nat.le_refl _, fun i h1 h2 => by omega⟩

theorem sublist_single (exp : List Char) (pos : Nat) (hlen : pos < exp.length) :
    sublist exp pos 1 = [exp.getD pos ' '] := by
  unfold sublist
  rw [List.drop_eq_getElem_cons hlen, List.getD_eq_getElem exp ' ' hlen]
  rfl

theorem sublist_head (exp : List Char) (pos k : Nat) (c : Char)
    (h : (sublist exp pos k).head? = some c) :
    pos < exp.length ∧ exp.getD pos ' ' = c := by
  unfold sublist at h
  by_cases hlen : pos < exp.length
  · rw [List.drop_eq_getElem_cons hlen] at h
    cases k with
    | zero => cases h
    | succ k =>
      rw [List.take_succ_cons] at h
      injection h with h1
      exact ⟨hlen, by rw [List.getD_eq_getElem exp ' ' hlen, h1]⟩
  · rw [List.drop_eq_nil_of_le (Nat.le_of_not_lt hlen)] at h
    rw [List.take_nil] at h
    cases h

theorem getD_default_of_ge (exp : List Char) (pos : Nat) (h : ¬ pos < exp.length) :
    exp.getD pos ' ' = ' ' :=
  List.getD_eq_default exp ' ' (Nat.le_of_not_lt h)

theorem drop_cons_getD (exp : List Char) (pos : Nat) (h : pos < exp.length) :
    exp.drop pos = exp.getD pos ' ' :: exp.drop (pos + 1) := by
  rw [List.getD_eq_getElem exp ' ' h]
  exact List.drop_eq_getElem_cons h

theorem parseOperator_parens (exp : List Char) (pos : Nat) (s : SymbolT) (pos' : Nat)
    (h : ParseOperator exp pos = .ok (s, pos')) :
    parensOfChars (exp.drop pos) = (symParen s).toList ++ parensOfChars (exp.drop pos') ∧
    pos < pos' := by
  unfold ParseOperator at h
  dsimp only at h
  by_cases hc : (exp.getD pos ' ' = '(' || exp.getD pos ' ' = ')') = true
  · rw [if_pos hc] at h
    have hlen : pos < exp.length := by
      by_contra hx
      rw [getD_default_of_ge exp pos hx] at hc
      simp at hc
    rw [show pos + 1 - pos = 1 from by omega, sublist_single exp pos hlen] at h
    rw [Bool.or_eq_true, decide_eq_true_eq, decide_eq_true_eq] at hc
    rcases hc with hc | hc
    · rw [hc] at h
      injection h with h1
      rw [Prod.mk.injEq] at h1
      obtain ⟨hs, hp⟩ := h1
      subst hs
      subst hp
      refine ⟨?_, by omega⟩
      rw [drop_cons_getD exp pos hlen, hc]
      rfl
    · rw [hc] at h
      injection h with h1
      rw [Prod.mk.injEq] at h1
      obtain ⟨hs, hp⟩ := h1
      subst hs
      subst hp
      refine ⟨?_, by omega⟩
      rw [drop_cons_getD exp pos hlen, hc]
      rfl
  · rw [if_neg hc] at h
    rw [Bool.or_eq_true, not_or, decide_eq_true_eq, decide_eq_true_eq] at hc
    obtain ⟨hc1, hc2⟩ := hc
    obtain ⟨hge, hreg⟩ := operExtendAux_spec exp exp.length pos
    split at h
    next op himpl =>
      injection h with h1
      rw [Prod.mk.injEq] at h1
      obtain ⟨hs, hp⟩ := h1
      subst hs
      subst hp
      rcases parseOperatorImpl_paren_shape _ _ himpl with hsp | hsub | hsub
      · refine ⟨?_, by omega⟩
        rw [hsp, Option.toList_none, List.nil_append]
        apply parensOfChars_drop_free' exp pos _ (by omega)
        intro i h1 h2
        rcases Nat.eq_or_lt_of_le h1 with h3 | h3
        · subst h3
          exact charParen_ne _ hc1 hc2
        · have hmem := (hreg i h3 (by omega)).2
          apply charParen_ne
          · intro hx
            rw [hx] at hmem
            rw [not_extend_paren.1] at hmem
            cases hmem
          · intro hx
            rw [hx] at hmem
            rw [not_extend_paren.2] at hmem
            cases hmem
      · exfalso
        have hhd : (sublist exp pos (operExtendAux exp pos exp.length + 1 - pos)).head? =
            some '(' := by rw [hsub]; rfl
        exact hc1 (sublist_head exp pos _ '(' hhd).2
      · exfalso
        have hhd : (sublist exp pos (operExtendAux exp pos exp.length + 1 - pos)).head? =
            some ')' := by rw [hsub]; rfl
        exact hc2 (sublist_head exp pos _ ')' hhd).2
    next himpl => cases h

set_option maxHeartbeats 1000000 in
theorem parseValueImpl_symParen (f : Schema) (e : String) (s : SymbolT)
    (h : ParseValueImpl f e = some s) : symParen s = none := by
  unfold ParseValueImpl at h
  split at h
  next => injection h with h1; subst h1; exact symParen_node _
  next =>
  split at h
  next => injection h with h1; subst h1; exact symParen_node _
  next =>
  by_cases hc0 : e = "currentEventNumber"
  · rw [if_pos hc0] at h; injection h with h1; subst h1; exact symParen_node _
  · rw [if_neg hc0] at h
    cases hpn : ParseNumerical e.data with
    | some n => rw [hpn] at h; injection h with h1; subst h1; exact symParen_node _
    | none =>
      rw [hpn] at h
      by_cases hk0 : e = "in"
      · rw [if_pos hk0] at h; injection h with h1; subst h1; rfl
      · rw [if_neg hk0] at h
        by_cases hk1 : e = "unique"
        · rw [if_pos hk1] at h; injection h with h1; subst h1; rfl
        · rw [if_neg hk1] at h
          by_cases hk2 : e = "any"
          · rw [if_pos hk2] at h; injection h with h1; subst h1; rfl
          · rw [if_neg hk2] at h
            by_cases hk3 : e = "all"
            · rw [if_pos hk3] at h; injection h with h1; subst h1; rfl
            · rw [if_neg hk3] at h
              by_cases hk4 : e = "sum"
              · rw [if_pos hk4] at h; injection h with h1; subst h1; rfl
              · rw [if_neg hk4] at h
                by_cases hk5 : e = "sin"
                · rw [if_pos hk5] at h; injection h with h1; subst h1; rfl
                · rw [if_neg hk5] at h
                  by_cases hk6 : e = "cos"
                  · rw [if_pos hk6] at h; injection h with h1; subst h1; rfl
                  · rw [if_neg hk6] at h
                    by_cases hk7 : e = "tan"
                    · rw [if_pos hk7] at h; injection h with h1; subst h1; rfl
                    · rw [if_neg hk7] at h
                      by_cases hk8 : e = "asin"
                      · rw [if_pos hk8] at h; injection h with h1; subst h1; rfl
                      · rw [if_neg hk8] at h
                        by_cases hk9 : e = "acos"
                        · rw [if_pos hk9] at h; injection h with h1; subst h1; rfl
                        · rw [if_neg hk9] at h
                          by_cases hk10 : e = "atan"
                          · rw [if_pos hk10] at h; injection h with h1; subst h1; rfl
                          · rw [if_neg hk10] at h
                            by_cases hk11 : e = "log"
                            · rw [if_pos hk11] at h; injection h with h1; subst h1; rfl
                            · rw [if_neg hk11] at h
                              by_cases hk12 : e = "log10"
                              · rw [if_pos hk12] at h; injection h with h1; subst h1; rfl
                              · rw [if_neg hk12] at h
                                by_cases hk13 : e = "exp"
                                · rw [if_pos hk13] at h; injection h with h1; subst h1; rfl
                                · rw [if_neg hk13] at h
                                  by_cases hk14 : e = "abs"
                                  · rw [if_pos hk14] at h; injection h with h1; subst h1; rfl
                                  · rw [if_neg hk14] at h
                                    by_cases hk15 : e = "fabs"
                                    · rw [if_pos hk15] at h; injection h with h1; subst h1; rfl
                                    · rw [if_neg hk15] at h
                                      by_cases hk16 : e = "sqrt"
                                      · rw [if_pos hk16] at h; injection h with h1; subst h1; rfl
                                      · rw [if_neg hk16] at h
                                        by_cases hk17 : e = "ceil"
                                        · rw [if_pos hk17] at h; injection h with h1; subst h1; rfl
                                        · rw [if_neg hk17] at h
                                          by_cases hk18 : e = "floor"
                                          · rw [if_pos hk18] at h; injection h with h1; subst h1; rfl
                                          · rw [if_neg hk18] at h
                                            by_cases hk19 : e = "isnan"
                                            · rw [if_pos hk19] at h; injection h with h1; subst h1; rfl
                                            · rw [if_neg hk19] at h
                                              by_cases hk20 : e = "isinf"
                                              · rw [if_pos hk20] at h; injection h with h1; subst h1; rfl
                                              · rw [if_neg hk20] at h
                                                by_cases hk21 : e = "sinh"
                                                · rw [if_pos hk21] at h; injection h with h1; subst h1; rfl
                                                · rw [if_neg hk21] at h
                                                  by_cases hk22 : e = "cosh"
                                                  · rw [if_pos hk22] at h; injection h with h1; subst h1; rfl
                                                  · rw [if_neg hk22] at h
                                                    by_cases hk23 : e = "tanh"
                                                    · rw [if_pos hk23] at h; injection h with h1; subst h1; rfl
                                                    · rw [if_neg hk23] at h
                                                      by_cases hk24 : e = "rand"
                                                      · rw [if_pos hk24] at h; injection h with h1; subst h1; rfl
                                                      · rw [if_neg hk24] at h
                                                        by_cases hk25 : e = "fmod"
                                                        · rw [if_pos hk25] at h; injection h with h1; subst h1; rfl
                                                        · rw [if_neg hk25] at h
                                                          by_cases hk26 : e = "pow"
                                                          · rw [if_pos hk26] at h; injection h with h1; subst h1; rfl
                                                          · rw [if_neg hk26] at h
                                                            by_cases hk27 : e = "int"
                                                            · rw [if_pos hk27] at h; injection h with h1; subst h1; rfl
                                                            · rw [if_neg hk27] at h
                                                              by_cases hk28 : e = "unsigned"
                                                              · rw [if_pos hk28] at h; injection h with h1; subst h1; rfl
                                                              · rw [if_neg hk28] at h
                                                                by_cases hk29 : e = "float"
                                                                · rw [if_pos hk29] at h; injection h with h1; subst h1; rfl
                                                                · rw [if_neg hk29] at h
                                                                  by_cases hk30 : e = "double"
                                                                  · rw [if_pos hk30] at h; injection h with h1; subst h1; rfl
                                                                  · rw [if_neg hk30] at h
                                                                    by_cases hk31 : e = "atan2"
                                                                    · rw [if_pos hk31] at h; injection h with h1; subst h1; rfl
                                                                    · rw [if_neg hk31] at h
                                                                      by_cases hk32 : e = "true"
                                                                      · rw [if_pos hk32] at h; injection h with h1; subst h1; rfl
                                                                      · rw [if_neg hk32] at h
                                                                        by_cases hk33 : e = "false"
                                                                        · rw [if_pos hk33] at h; injection h with h1; subst h1; rfl
                                                                        · rw [if_neg hk33] at h
                                                                          exact Option.noConfusion h


theorem valueShrink_none_no (f : Schema) (exp : List Char) (startpos : Nat)
    (operpos : Option Nat) (fuel : Nat) (r : SymbolT × Nat)
    (h : valueShrink f exp startpos operpos fuel none = .ok r) : False := by
  cases fuel with
  | zero => cases h
  | succ fuel => cases h

theorem valueShrink_result (f : Schema) (exp : List Char) (startpos : Nat)
    (operpos : Option Nat) :
    ∀ fuel endposO s pos', valueShrink f exp startpos operpos fuel endposO = .ok (s, pos') →
      symParen s = none ∧ startpos < pos' ∧
      ∀ e0, endposO = some e0 → pos' ≤ e0 + 1 := by
  intro fuel
  induction fuel with
  | zero => intro endposO s pos' h; cases h
  | succ fuel ih =>
    intro endposO s pos' h
    cases endposO with
    | none => cases h
    | some endpos =>
      unfold valueShrink at h
      dsimp only at h
      split at h
      · cases h
      next hge =>
        split at h
        next val hPV =>
          split at h
          · split at h
            · cases h
            next op0 =>
              split at h
              · injection h with h1
                rw [Prod.mk.injEq] at h1
                obtain ⟨hs, hp⟩ := h1
                subst hs
                subst hp
                refine ⟨parseValueImpl_symParen f _ val hPV, by omega, ?_⟩
                intro e0 he
                injection he with he1
                omega
              · cases h
          · injection h with h1
            rw [Prod.mk.injEq] at h1
            obtain ⟨hs, hp⟩ := h1
            subst hs
            subst hp
            refine ⟨parseValueImpl_symParen f _ val hPV, by omega, ?_⟩
            intro e0 he
            injection he with he1
            omega
        next hPV =>
          cases he1 : findLastOfUpTo exp ['+', '-'] (some endpos) with
          | none =>
            rw [he1] at h
            exact absurd h (fun hx => valueShrink_none_no f exp startpos operpos fuel _ hx)
          | some j =>
            rw [he1] at h
            replace h : valueShrink f exp startpos operpos fuel
                (findLastNotOfUpTo exp (['+', '-'] ++ wsChars) (some j)) =
                .ok (s, pos') := h
            cases he2 : findLastNotOfUpTo exp (['+', '-'] ++ wsChars) (some j) with
            | none =>
              rw [he2] at h
              exact absurd h (fun hx => valueShrink_none_no f exp startpos operpos fuel _ hx)
            | some j2 =>
              rw [he2] at h
              obtain ⟨h1, h2, h3⟩ := ih _ s pos' h
              refine ⟨h1, h2, ?_⟩
              intro e0 he
              injection he with he0
              subst he0
              have hb1 := findLastSuch_some_bound _ exp endpos j he1
              have hb2 := findLastSuch_some_bound _ exp j j2 he2
              have := h3 j2 rfl
              omega

theorem operChar_not_paren (c : Char) (hc : operChars.contains c = false) :
    charParen c = none := by
  apply charParen_ne
  · intro hx
    rw [hx] at hc
    exact absurd hc (by decide)
  · intro hx
    rw [hx] at hc
    exact absurd hc (by decide)

theorem parseValue_parens (f : Schema) (exp : List Char) (pos : Nat)
    (prev : List SymbolT) (s : SymbolT) (pos' : Nat)
    (hne : findFirstOfFrom exp operChars pos ≠ some pos)
    (h : ParseValue f exp pos (findFirstOfFrom exp operChars pos) prev = .ok (s, pos')) :
    parensOfChars (exp.drop pos) = (symParen s).toList ++ parensOfChars (exp.drop pos') ∧
    pos < pos' := by
  unfold ParseValue at h
  dsimp only at h
  cases hof : findFirstOfFrom exp operChars pos with
  | none =>
    rw [hof] at h
    split at h
    · cases h
    next endpos hend =>
      split at h
      · exact parseOperator_parens exp pos s pos' h
      · obtain ⟨hsym, hlt, hb3⟩ := valueShrink_result f exp pos none _ _ s pos' h
        refine ⟨?_, hlt⟩
        rw [hsym, Option.toList_none, List.nil_append]
        apply parensOfChars_drop_free' exp pos pos' (by omega)
        intro i h1 h2
        by_cases hil : i < exp.length
        · have hfree := findFirstSuch_none _ exp pos hof i h1 hil
          exact operChar_not_paren _ hfree
        · rw [getD_default_of_ge exp i hil]
          exact charParen_ne ' ' (by decide) (by decide)
  | some op =>
    rw [hof] at h
    split at h
    · cases h
    next endpos hend =>
      replace hend : findLastNotOfUpTo exp wsChars (some (op - 1)) = some endpos := hend
      have hb := findLastSuch_some_bound _ exp (op - 1) endpos hend
      obtain ⟨hople, hoplt, _, hofree⟩ := findFirstSuch_some _ exp pos op hof
      have hopne : pos ≠ op := by
        intro he
        rw [← he] at hof
        exact hne hof
      split at h
      · exact parseOperator_parens exp pos s pos' h
      · obtain ⟨hsym, hlt, hb3⟩ := valueShrink_result f exp pos (some op) _ _ s pos' h
        have hble := hb3 endpos rfl
        refine ⟨?_, hlt⟩
        rw [hsym, Option.toList_none, List.nil_append]
        apply parensOfChars_drop_free' exp pos pos' (by omega)
        intro i h1 h2
        have hio : i < op := by omega
        exact operChar_not_paren _ (hofree i h1 hio)

theorem wsChar_not_paren (c : Char) (hc : wsChars.contains c = true) :
    charParen c = none := by
  apply charParen_ne
  · intro hx
    rw [hx] at hc
    exact absurd hc (by decide)
  · intro hx
    rw [hx] at hc
    exact absurd hc (by decide)

theorem getNextSymbol_parens_some (f : Schema) (exp : List Char) (pos : Nat)
    (prev : List SymbolT) (s : SymbolT) (pos' : Nat)
    (h : GetNextSymbol f exp pos prev = .ok (some (s, pos'))) :
    parensOfChars (exp.drop pos) = (symParen s).toList ++ parensOfChars (exp.drop pos') := by
  unfold GetNextSymbol at h
  split at h
  · injection h with h1
    cases h1
  next pos1 hws =>
    obtain ⟨hwle, hwlt, _, hwfree⟩ := findFirstSuch_some _ exp pos pos1 hws
    have hskip : parensOfChars (exp.drop pos) = parensOfChars (exp.drop pos1) := by
      apply parensOfChars_drop_free' exp pos pos1 hwle
      intro i h1 h2
      have := hwfree i h1 h2
      rw [Bool.not_eq_false'] at this
      exact wsChar_not_paren _ this
    rw [hskip]
    dsimp only at h
    split at h
    next hopeq =>
      split at h
      next r hPO =>
        injection h with h1
        injection h1 with h2
        subst h2
        exact (parseOperator_parens exp pos1 s pos' hPO).1
      next e hPO => cases h
    next hopne =>
      split at h
      next r hPV =>
        injection h with h1
        injection h1 with h2
        subst h2
        exact (parseValue_parens f exp pos1 prev s pos' hopne hPV).1
      next e hPV => cases h

theorem getNextSymbol_parens_none (f : Schema) (exp : List Char) (pos : Nat)
    (prev : List SymbolT)
    (h : GetNextSymbol f exp pos prev = .ok none) :
    parensOfChars (exp.drop pos) = [] := by
  unfold GetNextSymbol at h
  split at h
  next hws =>
    have hfree := findFirstSuch_none _ exp pos hws
    have : parensOfChars (exp.drop pos) = parensOfChars (exp.drop exp.length) := by
      by_cases hle : pos ≤ exp.length
      · apply parensOfChars_drop_free' exp pos exp.length hle
        intro i h1 h2
        have := hfree i h1 h2
        rw [Bool.not_eq_false'] at this
        exact wsChar_not_paren _ this
      · rw [List.drop_eq_nil_of_le (by omega), List.drop_eq_nil_of_le (by omega)]
    rw [this, List.drop_length]
    rfl
  next pos1 hws =>
    dsimp only at h
    split at h
    · split at h
      next r hPO =>
        injection h with h1
        cases h1
      next e hPO => cases h
    · split at h
      next r hPV =>
        injection h with h1
        cases h1
      next e hPV => cases h

theorem filterMap_symParen_single (s : SymbolT) :
    List.filterMap symParen [s] = (symParen s).toList := by
  cases hx : symParen s <;> simp [List.filterMap_cons, hx]

theorem parseSymbolsAux_parens (f : Schema) (exp : List Char) :
    ∀ fuel pos acc syms, parseSymbolsAux f exp fuel pos acc = .ok syms →
      parensOfSyms syms = parensOfSyms acc ++ parensOfChars (exp.drop pos) := by
  intro fuel
  induction fuel with
  | zero => intro pos acc syms h; cases h
  | succ fuel ih =>
    intro pos acc syms h
    unfold parseSymbolsAux at h
    split at h
    next e hG => cases h
    next hG =>
      injection h with h1
      subst h1
      rw [getNextSymbol_parens_none f exp pos _ hG, List.append_nil]
    next s1 pos1 hG =>
      have heq := getNextSymbol_parens_some f exp pos acc s1 pos1 hG
      have hrec := ih pos1 (acc ++ [s1]) syms h
      rw [hrec, heq]
      unfold parensOfSyms
      rw [List.filterMap_append, filterMap_symParen_single, List.append_assoc]

theorem parseSymbols_parens (f : Schema) (exp : List Char) (syms : List SymbolT)
    (h : ParseSymbols f exp = .ok syms) :
    parensOfSyms syms = parensOfChars exp := by
  have := parseSymbolsAux_parens f exp (exp.length + 2) 0 [] syms h
  rw [this, List.drop_zero]
  rfl

/-- C8: an expression whose parenthesis characters do not form a balanced
sequence (a close below depth zero, or a nonzero final depth) never
compiles: Init raises a fatal error. -/
theorem unmatched_paren_fatal (f : Schema) (s : String)
    (h : ¬ balancedParens (parensOfChars s.data)) :
    ∃ e, Init f s = .error e := by
  cases hI : Init f s with
  | error e => exact ⟨e, rfl⟩
  | ok l =>
    exfalso
    apply h
    unfold Init at hI
    split at hI
    next e hps => cases hI
    next syms hps =>
      split at hI
      · cases hI
      · split at hI
        next e hrec => cases hI
        next res hrec =>
          have hrec' : parseStep (2 * syms.length + 4) true syms = .ok res := hrec
          have hbal := (parseStep_ok_balanced (2 * syms.length + 4) true syms res hrec').1
          rw [← parseSymbols_parens f s.data syms hps]
          exact hbal

theorem unmatched_paren_fatal_witness :
    (¬ balancedParens (parensOfChars "(1".data)) ∧
    (∃ e, Init Schema.empty "(1" = .error e) :=
  ⟨show ¬ dyckRun (parensOfChars "(1".data) 0 = some 0 by decide,
   unmatched_paren_fatal Schema.empty "(1"
     (show ¬ dyckRun (parensOfChars "(1".data) 0 = some 0 by decide)⟩
